import Mathlib

/-!
# InoPyUtils — verification of the specification against the source

Shallow embedding of the helper classes of the `InoPyUtils` repository
(`src/inopyutils/`): each Python helper method is translated into an
executable Lean definition over explicit data (bytes as `List Nat`,
filesystem state as an explicit record, external processes as oracle
parameters), and the specification's claims are settled as theorems
about those definitions.
-/

namespace InoPyUtils

/-! ## `InoAudioHelper.chunks_raw_pcm` (`audio_helper.py`)

Bytes are modelled as `List Nat`.  A Python argument that the code probes
with `isinstance(x, int)` is modelled by `PyIntArg`: either an actual
`int` payload or a value of some other type. -/

/-- A Python value checked with `isinstance(x, int)`: an `int`, or anything else. -/
inductive PyIntArg where
  | int (n : Int)
  | nonInt
deriving Repr, DecidableEq

/-- Result shape of `InoAudioHelper.chunks_raw_pcm`:
`{"success": …, "msg": …, "count": …, "chunks": …}`. -/
structure ChunksResult where
  success : Bool
  msg : String
  count : Nat
  chunks : List (List Nat)
deriving Repr, DecidableEq

/-- The slicing loop `[data[i:i + chunk_size] for i in range(0, len(data), chunk_size)]`
for a chunk size of `sizePred + 1` (the code guards `chunk_size <= 0`, so the size
is always at least 1, here enforced by construction). -/
def sliceChunks (sizePred : Nat) (data : List Nat) : List (List Nat) :=
  match data with
  | [] => []
  | x :: xs =>
      (x :: xs).take (sizePred + 1) :: sliceChunks sizePred ((x :: xs).drop (sizePred + 1))
termination_by data.length
decreasing_by simp [List.length_drop]; omega

/-- `InoAudioHelper.chunks_raw_pcm` (`audio_helper.py` lines 128–170): validate the
chunk size (`isinstance(chunk_size, int)` and `chunk_size > 0`), then slice.  The
`isinstance(audio, (bytes, bytearray))` check is satisfied by construction since
`audio` is modelled as a byte list. -/
def chunks_raw_pcm (audio : List Nat) (chunk_size : PyIntArg) : ChunksResult :=
  match chunk_size with
  | .nonInt =>
      { success := false, msg := "chunk_size must be a positive integer"
        count := 0, chunks := [] }
  | .int n =>
      if n ≤ 0 then
        { success := false, msg := "chunk_size must be a positive integer"
          count := 0, chunks := [] }
      else
        let chunks := sliceChunks (n.toNat - 1) audio
        { success := true, msg := "Raw PCM chunked successfully"
          count := chunks.length, chunks := chunks }

theorem sliceChunks_nil (p : Nat) : sliceChunks p [] = [] := by
  simp [sliceChunks]

theorem sliceChunks_cons (p : Nat) (x : Nat) (xs : List Nat) :
    sliceChunks p (x :: xs) =
      (x :: xs).take (p + 1) :: sliceChunks p ((x :: xs).drop (p + 1)) := by
  rw [sliceChunks]

/-- Concatenating the chunks restores the original byte list. -/
theorem sliceChunks_flatten (p : Nat) (data : List Nat) :
    (sliceChunks p data).flatten = data := by
  induction data using sliceChunks.induct p with
  | case1 => simp [sliceChunks]
  | case2 x xs ih =>
      rw [sliceChunks_cons, List.flatten_cons, ih, List.take_append_drop]

/-- The number of chunks is `⌈data.length / (p+1)⌉`, written with natural division. -/
theorem sliceChunks_length (p : Nat) (data : List Nat) :
    (sliceChunks p data).length = (data.length + p) / (p + 1) := by
  induction data using sliceChunks.induct p with
  | case1 =>
      rw [sliceChunks_nil]
      simp [Nat.div_eq_of_lt (Nat.lt_succ_self p)]
  | case2 x xs ih =>
      rw [sliceChunks_cons, List.length_cons, ih, List.length_drop]
      rcases Nat.lt_or_ge ((x :: xs).length) (p + 1) with h | h
      · rw [Nat.sub_eq_zero_of_le (Nat.le_of_lt h)]
        simp only [List.length_cons, Nat.zero_add] at h ⊢
        rw [Nat.div_eq_of_lt (by omega)]
        have h1 : (xs.length + 1 + p) / (p + 1) = 1 := by
          rw [Nat.div_eq_sub_div (by omega) (by omega), Nat.div_eq_of_lt (by omega)]
        omega
      · have hlen : (x :: xs).length - (p + 1) + p = (x :: xs).length + p - (p + 1) := by
          omega
        rw [hlen, Nat.div_eq_sub_div (by omega : 0 < p + 1) (by omega : p + 1 ≤ (x :: xs).length + p)]

/-- Every chunk has length at most `p + 1`. -/
theorem sliceChunks_le (p : Nat) (data : List Nat) :
    ∀ c ∈ sliceChunks p data, c.length ≤ p + 1 := by
  induction data using sliceChunks.induct p with
  | case1 => simp [sliceChunks]
  | case2 x xs ih =>
      rw [sliceChunks_cons]
      intro c hc
      rcases List.mem_cons.mp hc with rfl | hmem
      · exact List.length_take_le (p + 1) (x :: xs)
      · exact ih c hmem

/-- Every chunk except possibly the last has length exactly `p + 1`. -/
theorem sliceChunks_full (p : Nat) (data : List Nat) :
    ∀ c ∈ (sliceChunks p data).dropLast, c.length = p + 1 := by
  induction data using sliceChunks.induct p with
  | case1 => simp [sliceChunks]
  | case2 x xs ih =>
      rw [sliceChunks_cons]
      intro c hc
      match hrec : sliceChunks p ((x :: xs).drop (p + 1)) with
      | [] =>
          rw [hrec] at hc
          simp at hc
      | r :: rs =>
          rw [hrec, List.dropLast_cons₂] at hc
          rcases List.mem_cons.mp hc with rfl | hmem
          · have hdrop : (x :: xs).drop (p + 1) ≠ [] := by
              intro hnil; rw [hnil] at hrec; simp [sliceChunks] at hrec
            have hle : p + 1 ≤ (x :: xs).length := by
              by_contra hlt
              exact hdrop (List.drop_eq_nil_of_le (by omega))
            simp only [List.length_cons] at hle
            simp [List.length_take]
            omega
          · exact ih c (hrec ▸ hmem)

/-- **C4.** For every byte sequence and every chunk-size argument:
with an integer size `S > 0`, `chunks_raw_pcm` returns a success result with
`count = ⌈N/S⌉` (written `(N + (S-1)) / S` in natural division), chunks that
concatenate back to the input, each chunk of length at most `S`, and every chunk
except possibly the final one of length exactly `S`; with `S ≤ 0` or a
non-integer size argument it returns a failure result with `count = 0` and an
empty chunks list. -/
theorem chunks_raw_pcm_spec (audio : List Nat) (arg : PyIntArg) :
    (∀ n : Int, arg = PyIntArg.int n → 0 < n →
      (chunks_raw_pcm audio arg).success = true
      ∧ (chunks_raw_pcm audio arg).count = (audio.length + (n.toNat - 1)) / n.toNat
      ∧ (chunks_raw_pcm audio arg).chunks.flatten = audio
      ∧ (∀ c ∈ (chunks_raw_pcm audio arg).chunks, c.length ≤ n.toNat)
      ∧ (∀ c ∈ (chunks_raw_pcm audio arg).chunks.dropLast, c.length = n.toNat))
    ∧ ((arg = PyIntArg.nonInt ∨ (∃ n : Int, arg = PyIntArg.int n ∧ n ≤ 0)) →
      chunks_raw_pcm audio arg =
        { success := false, msg := "chunk_size must be a positive integer"
          count := 0, chunks := [] }) := by
  constructor
  · intro n harg hpos
    subst harg
    have hS : n.toNat - 1 + 1 = n.toNat := by omega
    simp only [chunks_raw_pcm, if_neg (not_le.mpr hpos)]
    refine ⟨trivial, ?_, ?_, ?_, ?_⟩
    · rw [sliceChunks_length, hS]
    · exact sliceChunks_flatten _ _
    · intro c hc
      have := sliceChunks_le (n.toNat - 1) audio c hc
      omega
    · intro c hc
      have := sliceChunks_full (n.toNat - 1) audio c hc
      omega
  · rintro (rfl | ⟨n, rfl, hle⟩)
    · rfl
    · simp [chunks_raw_pcm, if_pos hle]

theorem chunks_raw_pcm_spec_witness :
    ((chunks_raw_pcm [1, 2, 3, 4, 5] (PyIntArg.int 2)).success = true
      ∧ (chunks_raw_pcm [1, 2, 3, 4, 5] (PyIntArg.int 2)).count = 3
      ∧ (chunks_raw_pcm [1, 2, 3, 4, 5] (PyIntArg.int 2)).chunks.flatten = [1, 2, 3, 4, 5])
    ∧ chunks_raw_pcm [1, 2] PyIntArg.nonInt =
        { success := false, msg := "chunk_size must be a positive integer"
          count := 0, chunks := [] } := by
  have h := (chunks_raw_pcm_spec [1, 2, 3, 4, 5] (PyIntArg.int 2)).1 2 rfl (by decide)
  have h2 := (chunks_raw_pcm_spec [1, 2] PyIntArg.nonInt).2 (Or.inl rfl)
  exact ⟨⟨h.1, by rw [h.2.1]; decide, h.2.2.1⟩, h2⟩

/-! ## `InoAudioHelper.transcode_raw_pcm` and `InoAudioHelper.audio_to_raw_pcm`
(`audio_helper.py`)

The ffmpeg subprocess is an oracle `run : List String → List Nat → ProcResult`
mapping the constructed argument list and the stdin payload to the process
outcome (exit code, stdout bytes, decoded stderr text).  The numeric `gain_db`
and `limit_ceiling` floats appear in the argument list only through their
decimal renderings, which are kept abstract as strings. -/

/-- Outcome of `asyncio.create_subprocess_exec` + `communicate`: exit code,
captured stdout bytes, and the decoded stderr text. -/
structure ProcResult where
  returncode : Int
  stdout : List Nat
  stderr : String
deriving Repr, DecidableEq

/-- Result shape of the two audio ffmpeg wrappers:
`{"success": …, "msg": …, "error_code": …, "data": …}`. -/
structure AudioResult where
  success : Bool
  msg : String
  error_code : String
  data : List Nat
deriving Repr, DecidableEq

/-- The argument list built by `transcode_raw_pcm` (`audio_helper.py` lines 17–42). -/
def transcodeArgs (output codec to_format application : String) (rate channel : Nat)
    (gain_db : Option String) (limit_after_gain : Bool) (limit_ceiling : String) :
    List String :=
  let args := ["ffmpeg", "-f", to_format, "-ar", toString rate, "-ac", toString channel,
               "-i", "pipe:0"]
  let afilters : List String :=
    match gain_db with
    | some g =>
        ("volume=" ++ g ++ "dB") ::
          (if limit_after_gain then ["alimiter=limit=" ++ limit_ceiling] else [])
    | none => []
  let args := args ++ (if afilters = [] then [] else ["-filter:a", String.intercalate "," afilters])
  args ++ ["-c:a", codec, "-b:a", "24k", "-vbr", "on", "-application", application,
           "-sample_fmt", "s16", "-f", output, "pipe:1"]

/-- `InoAudioHelper.transcode_raw_pcm` (`audio_helper.py` lines 4–65): run ffmpeg on
the PCM bytes and classify purely by the exit code. -/
def transcode_raw_pcm (run : List String → List Nat → ProcResult) (pcm_bytes : List Nat)
    (output codec to_format application : String) (rate channel : Nat)
    (gain_db : Option String) (limit_after_gain : Bool) (limit_ceiling : String) :
    AudioResult :=
  let p := run (transcodeArgs output codec to_format application rate channel gain_db
      limit_after_gain limit_ceiling) pcm_bytes
  if p.returncode ≠ 0 then
    { success := false, msg := "ffmpeg failed", error_code := p.stderr, data := [] }
  else
    { success := true, msg := "Transcode successful", error_code := p.stderr, data := p.stdout }

/-- The argument list built by `audio_to_raw_pcm` (`audio_helper.py` lines 92–102). -/
def audioToRawPcmArgs (to_format : String) (rate channel : Nat) : List String :=
  ["ffmpeg", "-hide_banner", "-nostdin", "-i", "pipe:0", "-vn",
   "-ar", toString rate, "-ac", toString channel, "-f", to_format, "pipe:1"]

/-- `InoAudioHelper.audio_to_raw_pcm` (`audio_helper.py` lines 67–125). -/
def audio_to_raw_pcm (run : List String → List Nat → ProcResult) (audio : List Nat)
    (to_format : String) (rate channel : Nat) : AudioResult :=
  let p := run (audioToRawPcmArgs to_format rate channel) audio
  if p.returncode ≠ 0 then
    { success := false, msg := "ffmpeg failed", error_code := p.stderr, data := [] }
  else
    { success := true, msg := "Decode to raw PCM successful", error_code := p.stderr
      data := p.stdout }

/-- **C8.** For both audio ffmpeg wrappers, success is classified purely by the
subprocess exit code: a nonzero exit code yields a failure result carrying the
captured stderr text and an empty byte payload, and a zero exit code yields a
success result carrying the captured stdout bytes together with the stderr text. -/
theorem audio_exit_code_classification
    (run : List String → List Nat → ProcResult) (pcm audio : List Nat)
    (output codec to_format application : String) (rate channel : Nat)
    (gain_db : Option String) (limit_after_gain : Bool) (limit_ceiling : String)
    (to_format2 : String) (rate2 channel2 : Nat) :
    (let p := run (transcodeArgs output codec to_format application rate channel gain_db
        limit_after_gain limit_ceiling) pcm
     let r := transcode_raw_pcm run pcm output codec to_format application rate channel
        gain_db limit_after_gain limit_ceiling
     (p.returncode ≠ 0 →
        r.success = false ∧ r.error_code = p.stderr ∧ r.data = [])
     ∧ (p.returncode = 0 →
        r.success = true ∧ r.error_code = p.stderr ∧ r.data = p.stdout))
    ∧ (let p := run (audioToRawPcmArgs to_format2 rate2 channel2) audio
       let r := audio_to_raw_pcm run audio to_format2 rate2 channel2
       (p.returncode ≠ 0 →
          r.success = false ∧ r.error_code = p.stderr ∧ r.data = [])
       ∧ (p.returncode = 0 →
          r.success = true ∧ r.error_code = p.stderr ∧ r.data = p.stdout)) := by
  refine ⟨⟨?_, ?_⟩, ⟨?_, ?_⟩⟩ <;> intro h <;>
    simp [transcode_raw_pcm, audio_to_raw_pcm, h]

theorem audio_exit_code_classification_witness :
    (transcode_raw_pcm (fun _ _ => ⟨1, [9], "boom"⟩) [0] "ogg" "libopus" "s16le" "voip"
        16000 1 none true "0.98").success = false
    ∧ (transcode_raw_pcm (fun _ _ => ⟨1, [9], "boom"⟩) [0] "ogg" "libopus" "s16le" "voip"
        16000 1 none true "0.98").data = []
    ∧ (audio_to_raw_pcm (fun _ _ => ⟨0, [7, 8], "warn"⟩) [0] "s16le" 16000 1).success = true
    ∧ (audio_to_raw_pcm (fun _ _ => ⟨0, [7, 8], "warn"⟩) [0] "s16le" 16000 1).data = [7, 8] := by
  have h := audio_exit_code_classification (fun _ _ => ⟨1, [9], "boom"⟩) [0] [0]
    "ogg" "libopus" "s16le" "voip" 16000 1 none true "0.98" "s16le" 16000 1
  have h2 := audio_exit_code_classification (fun _ _ => ⟨0, [7, 8], "warn"⟩) [0] [0]
    "ogg" "libopus" "s16le" "voip" 16000 1 none true "0.98" "s16le" 16000 1
  have ha := h.1.1 (by decide)
  have hb := h2.2.2 rfl
  exact ⟨ha.1, ha.2.2, hb.1, hb.2.2⟩


/-! ## Filesystem model for `InoFileHelper` (`file_helper/file_helper.py`)

Paths are lists of components; the filesystem is a finite association list
from paths to node kinds.  `asyncio.to_thread(...)` delegations are modelled
as the underlying filesystem mutation; exceptions that the external calls may
raise (`unlink`, `rmtree`, `shutil.move`) are oracle parameters. -/

/-- A path as its list of components (relative to an implicit root). -/
abbrev PyPath := List String

/-- Kind of a filesystem node. -/
inductive FsNode where
  | file
  | dir
deriving Repr, DecidableEq

/-- Filesystem state: a finite map from paths to node kinds. -/
structure Fs where
  entries : List (PyPath × FsNode)
deriving Repr, DecidableEq

def Fs.lookup (fs : Fs) (p : PyPath) : Option FsNode :=
  (fs.entries.find? (fun e => e.1 == p)).map (·.2)

/-- `Path.exists()`. -/
def Fs.existsPath (fs : Fs) (p : PyPath) : Bool :=
  (fs.lookup p).isSome

/-- `Path.is_file()`. -/
def Fs.isFile (fs : Fs) (p : PyPath) : Bool :=
  match fs.lookup p with
  | some FsNode.file => true
  | _ => false

/-- `Path.is_dir()`. -/
def Fs.isDir (fs : Fs) (p : PyPath) : Bool :=
  match fs.lookup p with
  | some FsNode.dir => true
  | _ => false

/-- Add a node only when the path is not present (used by `mkdir(exist_ok=True)`). -/
def Fs.addIfAbsent (fs : Fs) (p : PyPath) (t : FsNode) : Fs :=
  if (fs.lookup p).isSome then fs else ⟨fs.entries ++ [(p, t)]⟩

/-- Write a node at a path, replacing any node already there (extraction / move
targets overwrite).  Any previous entry for the path is dropped and the new one
recorded. -/
def Fs.setEntry (fs : Fs) (p : PyPath) (t : FsNode) : Fs :=
  ⟨fs.entries.filter (fun e => !(e.1 == p)) ++ [(p, t)]⟩

/-- Remove the node at a path (`Path.unlink`). -/
def Fs.remove (fs : Fs) (p : PyPath) : Fs :=
  ⟨fs.entries.filter (fun e => !(e.1 == p))⟩

/-- Remove a directory and everything below it (`shutil.rmtree`). -/
def Fs.removeTree (fs : Fs) (p : PyPath) : Fs :=
  ⟨fs.entries.filter (fun e => !(p.isPrefixOf e.1))⟩

/-- The nonempty prefixes of a path, shortest first. -/
def pathPrefixes (p : PyPath) : List PyPath :=
  (List.range p.length).map (fun i => p.take (i + 1))

/-- `Path.mkdir(parents=True, exist_ok=True)`: create every missing prefix as a
directory.  (Python raises when a prefix exists as a file; theorems that need the
directory to result carry that as a hypothesis.) -/
def Fs.mkdirParents (fs : Fs) (p : PyPath) : Fs :=
  (pathPrefixes p).foldl (fun acc q => acc.addIfAbsent q FsNode.dir) fs

/-- The entries strictly below a path, in storage order (`Path.rglob("*")`). -/
def Fs.under (fs : Fs) (p : PyPath) : List (PyPath × FsNode) :=
  fs.entries.filter (fun e => p.isPrefixOf e.1 && !(e.1 == p))

/-- `Path.name`: the final component. -/
def pyName (p : PyPath) : String :=
  p.getLast?.getD ""

/-- `str(path)`: components joined by the separator. -/
def pathStr (p : PyPath) : String :=
  String.intercalate "/" p

/-- `str.rfind(c)`: index of the last occurrence, `-1` when absent. -/
def pyRfindAux (cs : List Char) (c : Char) (i : Nat) (best : Int) : Int :=
  match cs with
  | [] => best
  | a :: rest => pyRfindAux rest c (i + 1) (if a = c then (i : Int) else best)

def pyRfind (cs : List Char) (c : Char) : Int :=
  pyRfindAux cs c 0 (-1)

/-- `PurePath.suffix` on a final component: the substring from the last dot,
unless that dot is the first or last character. -/
def pySuffix (name : String) : String :=
  let cs := name.toList
  let i := pyRfind cs '.'
  if 0 < i ∧ i < (cs.length : Int) - 1 then String.mk (cs.drop i.toNat) else ""

/-- Result shape of the simple `InoFileHelper` operations: `{"success": …, "msg": …}`. -/
structure FhResult where
  success : Bool
  msg : String
deriving Repr, DecidableEq

/-- Outcome of `zipfile.ZipFile(...).extractall(...)`: the archive's entries
(paths relative to the output directory), a `BadZipFile`, or another exception. -/
inductive ZipOutcome where
  | ok (entries : List (PyPath × FsNode))
  | badZip
  | raises (e : String)
deriving Repr, DecidableEq

/-- Result shape of `InoFileHelper.unzip`; the success dictionary carries
`output_path` and `files_extracted` instead of `msg`. -/
structure UnzipResult where
  success : Bool
  msg : String
  output_path : Option String := none
  files_extracted : Option Nat := none
deriving Repr, DecidableEq

/-- `InoFileHelper.unzip` (`file_helper.py` lines 10–51): create the output
directory first, then validate, then extract and count `rglob("*")` entries. -/
def unzip (fs : Fs) (zip_path output_path : PyPath) (outcome : ZipOutcome) :
    Fs × UnzipResult :=
  let fs := fs.mkdirParents output_path
  if ¬ fs.isFile zip_path then
    (fs, { success := false, msg := pyName zip_path ++ " is not a file" })
  else if ¬ (pySuffix (pyName zip_path) = ".zip") then
    (fs, { success := false, msg := pyName zip_path ++ " is not a zip file" })
  else
    match outcome with
    | ZipOutcome.badZip =>
        (fs, { success := false, msg := pyName zip_path ++ " is not a valid zip file" })
    | ZipOutcome.raises e =>
        (fs, { success := false, msg := "Error extracting " ++ pyName zip_path ++ ": " ++ e })
    | ZipOutcome.ok entries =>
        let fs := entries.foldl (fun acc e => acc.setEntry (output_path ++ e.1) e.2) fs
        let extracted := fs.under output_path
        if extracted.length = 0 then
          (fs, { success := false, msg := "No files found after extracting " ++ pyName zip_path })
        else
          (fs, { success := true, msg := ""
                 output_path := some (pathStr output_path)
                 files_extracted := some extracted.length })

/-- `InoFileHelper.remove_file` (`file_helper.py` lines 54–78). -/
def remove_file (fs : Fs) (file_path : PyPath) (unlinkRaises : Option String) :
    Fs × FhResult :=
  if ¬ fs.existsPath file_path then
    (fs, { success := false, msg := pyName file_path ++ " not exist" })
  else if ¬ fs.isFile file_path then
    (fs, { success := false, msg := pyName file_path ++ " is not a file" })
  else
    match unlinkRaises with
    | some e =>
        (fs, { success := false
               msg := "⚠️ Failed to delete " ++ pathStr file_path ++ ": " ++ e })
    | none =>
        (fs.remove file_path, { success := true, msg := "File " ++ pyName file_path ++ " deleted" })

/-- `InoFileHelper.remove_folder` (`file_helper.py` lines 81–105). -/
def remove_folder (fs : Fs) (folder_path : PyPath) (rmtreeRaises : Option String) :
    Fs × FhResult :=
  if ¬ fs.existsPath folder_path then
    (fs, { success := false, msg := pyName folder_path ++ " not exist" })
  else if ¬ fs.isDir folder_path then
    (fs, { success := false, msg := pyName folder_path ++ " is not a directory" })
  else
    match rmtreeRaises with
    | some e =>
        (fs, { success := false
               msg := "⚠️ Failed to delete " ++ pathStr folder_path ++ ": " ++ e })
    | none =>
        (fs.removeTree folder_path,
         { success := true, msg := "File " ++ pyName folder_path ++ " deleted" })

/-- `InoFileHelper.move_file` (`file_helper.py` lines 108–134): after the source
checks, create the destination parent if absent, then move. -/
def move_file (fs : Fs) (from_path to_path : PyPath) (moveRaises : Option String) :
    Fs × FhResult :=
  if ¬ fs.existsPath from_path then
    (fs, { success := false, msg := pyName from_path ++ " not exist" })
  else if ¬ fs.isFile from_path then
    (fs, { success := false, msg := pyName from_path ++ " is not a file" })
  else
    let fs1 := if ¬ fs.existsPath to_path.dropLast then fs.mkdirParents to_path.dropLast else fs
    match moveRaises with
    | some e =>
        (fs1, { success := false, msg := "⚠️ Failed to move " ++ pyName from_path ++ ": " ++ e })
    | none =>
        ((fs1.remove from_path).setEntry to_path FsNode.file,
         { success := true
           msg := "File " ++ pathStr from_path ++ " moved to " ++ pathStr to_path })


/-- **C5.** For every path that does not exist, `remove_file`, `remove_folder`
and `move_file` each return the `"not exist"` failure result and leave the
filesystem untouched (for `move_file`, the destination parent directory is not
created either, since the source check precedes the `mkdir`). -/
theorem nonexistent_path_no_mutation (fs : Fs) (p dest : PyPath)
    (o1 o2 o3 : Option String) (h : fs.existsPath p = false) :
    remove_file fs p o1 = (fs, { success := false, msg := pyName p ++ " not exist" })
    ∧ remove_folder fs p o2 = (fs, { success := false, msg := pyName p ++ " not exist" })
    ∧ move_file fs p dest o3 = (fs, { success := false, msg := pyName p ++ " not exist" }) := by
  refine ⟨?_, ?_, ?_⟩ <;> simp [remove_file, remove_folder, move_file, h]

theorem nonexistent_path_no_mutation_witness :
    Fs.existsPath ⟨[(["keep"], FsNode.file)]⟩ ["a"] = false
    ∧ remove_file ⟨[(["keep"], FsNode.file)]⟩ ["a"] none =
        (⟨[(["keep"], FsNode.file)]⟩, { success := false, msg := "a not exist" })
    ∧ remove_folder ⟨[(["keep"], FsNode.file)]⟩ ["a"] none =
        (⟨[(["keep"], FsNode.file)]⟩, { success := false, msg := "a not exist" })
    ∧ move_file ⟨[(["keep"], FsNode.file)]⟩ ["a"] ["b", "c"] none =
        (⟨[(["keep"], FsNode.file)]⟩, { success := false, msg := "a not exist" }) := by
  have h := nonexistent_path_no_mutation ⟨[(["keep"], FsNode.file)]⟩ ["a"] ["b", "c"]
    none none none (by decide)
  exact ⟨by decide, h.1, h.2.1, h.2.2⟩

theorem Fs.lookup_append_single (entries : List (PyPath × FsNode)) (p : PyPath)
    (t : FsNode) (q : PyPath) :
    Fs.lookup ⟨entries ++ [(p, t)]⟩ q =
      (match Fs.lookup ⟨entries⟩ q with
       | some v => some v
       | none => if p = q then some t else none) := by
  simp only [Fs.lookup, List.find?_append]
  cases hfind : entries.find? (fun e => e.1 == q) with
  | some v => simp [Option.orElse]
  | none =>
      by_cases hpq : p = q
      · subst hpq
        simp [Option.orElse, List.find?]
      · have hb : (p == q) = false := beq_eq_false_iff_ne.mpr hpq
        simp [Option.orElse, List.find?, hb, hpq]

theorem Fs.find?_filter_ne (entries : List (PyPath × FsNode)) (p q : PyPath) (h : p ≠ q) :
    (entries.filter (fun e => !(e.1 == p))).find? (fun e => e.1 == q)
      = entries.find? (fun e => e.1 == q) := by
  induction entries with
  | nil => rfl
  | cons e es ih =>
      by_cases hep : e.1 = p
      · have hb1 : (e.1 == p) = true := beq_iff_eq.mpr hep
        have hb2 : (e.1 == q) = false := beq_eq_false_iff_ne.mpr (by rw [hep]; exact h)
        simp [List.filter_cons, List.find?, hb1, hb2, ih]
      · have hb1 : (e.1 == p) = false := beq_eq_false_iff_ne.mpr hep
        by_cases heq : e.1 = q
        · have hb2 : (e.1 == q) = true := beq_iff_eq.mpr heq
          simp [List.filter_cons, List.find?, hb1, hb2]
        · have hb2 : (e.1 == q) = false := beq_eq_false_iff_ne.mpr heq
          simp [List.filter_cons, List.find?, hb1, hb2, ih]

theorem Fs.lookup_setEntry_ne (fs : Fs) (p : PyPath) (t : FsNode) (q : PyPath) (h : p ≠ q) :
    (fs.setEntry p t).lookup q = fs.lookup q := by
  simp only [Fs.setEntry]
  rw [Fs.lookup_append_single]
  simp only [Fs.lookup, Fs.find?_filter_ne fs.entries p q h]
  cases hfind : fs.entries.find? (fun e => e.1 == q) with
  | some v => rfl
  | none => simp [h]

theorem Fs.lookup_addIfAbsent (fs : Fs) (p : PyPath) (t : FsNode) (q : PyPath) :
    (fs.addIfAbsent p t).lookup q =
      (if (fs.lookup p).isSome then fs.lookup q
       else match fs.lookup q with
            | some v => some v
            | none => if p = q then some t else none) := by
  by_cases hp : (fs.lookup p).isSome
  · simp [Fs.addIfAbsent, hp]
  · simp only [Fs.addIfAbsent, hp, if_neg, Bool.false_eq_true, if_false]
    exact Fs.lookup_append_single fs.entries p t q

theorem Fs.isFile_addIfAbsent_dir (fs : Fs) (p q : PyPath) :
    (fs.addIfAbsent p FsNode.dir).isFile q = fs.isFile q := by
  rw [Fs.isFile, Fs.lookup_addIfAbsent, Fs.isFile]
  by_cases hp : (fs.lookup p).isSome
  · simp [hp]
  · simp only [hp, if_false]
    cases hq : fs.lookup q with
    | some v => rfl
    | none => by_cases hpq : p = q <;> simp [hpq]

theorem Fs.isDir_addIfAbsent_mono (fs : Fs) (p : PyPath) (t : FsNode) (q : PyPath)
    (h : fs.isDir q = true) : (fs.addIfAbsent p t).isDir q = true := by
  rw [Fs.isDir, Fs.lookup_addIfAbsent]
  rw [Fs.isDir] at h
  by_cases hp : (fs.lookup p).isSome
  · simpa [hp] using h
  · simp only [hp, if_false]
    cases hq : fs.lookup q with
    | some v => rw [hq] at h; simpa using h
    | none => rw [hq] at h; simp at h

theorem Fs.isDir_addIfAbsent_self (fs : Fs) (q : PyPath) (h : fs.isFile q = false) :
    (fs.addIfAbsent q FsNode.dir).isDir q = true := by
  rw [Fs.isDir, Fs.lookup_addIfAbsent]
  rw [Fs.isFile] at h
  cases hq : fs.lookup q with
  | some v =>
      cases v with
      | file => rw [hq] at h; simp at h
      | dir => simp [hq]
  | none => simp [hq]

theorem Fs.foldl_mkdir_isFile (l : List PyPath) (fs : Fs) (q : PyPath) :
    (l.foldl (fun acc r => acc.addIfAbsent r FsNode.dir) fs).isFile q = fs.isFile q := by
  induction l generalizing fs with
  | nil => rfl
  | cons r rs ih => rw [List.foldl_cons, ih, Fs.isFile_addIfAbsent_dir]

theorem Fs.foldl_mkdir_isDir_mono (l : List PyPath) (fs : Fs) (q : PyPath)
    (h : fs.isDir q = true) :
    (l.foldl (fun acc r => acc.addIfAbsent r FsNode.dir) fs).isDir q = true := by
  induction l generalizing fs with
  | nil => exact h
  | cons r rs ih => exact ih _ (Fs.isDir_addIfAbsent_mono fs r FsNode.dir q h)

theorem Fs.foldl_mkdir_isDir_mem (l : List PyPath) (fs : Fs) (q : PyPath)
    (hq : q ∈ l) (h : fs.isFile q = false) :
    (l.foldl (fun acc r => acc.addIfAbsent r FsNode.dir) fs).isDir q = true := by
  induction l generalizing fs with
  | nil => cases hq
  | cons r rs ih =>
      rw [List.foldl_cons]
      rcases List.mem_cons.mp hq with rfl | hmem
      · exact Fs.foldl_mkdir_isDir_mono rs _ q (Fs.isDir_addIfAbsent_self fs q h)
      · exact ih _ hmem (by rw [Fs.isFile_addIfAbsent_dir]; exact h)

theorem Fs.mkdirParents_isFile (fs : Fs) (p q : PyPath) :
    (fs.mkdirParents p).isFile q = fs.isFile q :=
  Fs.foldl_mkdir_isFile _ fs q

theorem self_mem_pathPrefixes (p : PyPath) (hne : p ≠ []) : p ∈ pathPrefixes p := by
  have hlen : 0 < p.length := List.length_pos.mpr hne
  refine List.mem_map.mpr ⟨p.length - 1, List.mem_range.mpr (by omega), ?_⟩
  rw [show p.length - 1 + 1 = p.length by omega, List.take_length]

theorem Fs.mkdirParents_isDir_self (fs : Fs) (p : PyPath) (hne : p ≠ [])
    (h : ∀ q ∈ pathPrefixes p, fs.isFile q = false) :
    (fs.mkdirParents p).isDir p = true :=
  Fs.foldl_mkdir_isDir_mem _ fs p (self_mem_pathPrefixes p hne) (h p (self_mem_pathPrefixes p hne))

theorem Fs.isDir_setEntry_ne (fs : Fs) (p : PyPath) (t : FsNode) (q : PyPath) (h : p ≠ q) :
    (fs.setEntry p t).isDir q = fs.isDir q := by
  rw [Fs.isDir, Fs.lookup_setEntry_ne fs p t q h, Fs.isDir]

theorem Fs.foldl_setEntry_isDir (es : List (PyPath × FsNode)) (fs : Fs) (out q : PyPath)
    (h : ∀ e ∈ es, out ++ e.1 ≠ q) :
    (es.foldl (fun acc e => acc.setEntry (out ++ e.1) e.2) fs).isDir q = fs.isDir q := by
  induction es generalizing fs with
  | nil => rfl
  | cons e rest ih =>
      rw [List.foldl_cons, ih _ (fun x hx => h x (List.mem_cons_of_mem e hx)),
        Fs.isDir_setEntry_ne fs _ e.2 q (h e (List.mem_cons_self e rest))]

/-- **C10.** `unzip` creates the output directory (with parents) before any
validation, so it exists afterwards even when the call returns a failure result
(here: whenever the zip path is not an existing file). -/
theorem unzip_creates_output_dir_before_validation (fs : Fs) (zp op : PyPath)
    (outcome : ZipOutcome) (hne : op ≠ [])
    (hclear : ∀ q ∈ pathPrefixes op, fs.isFile q = false)
    (hrel : ∀ es, outcome = ZipOutcome.ok es → ∀ e ∈ es, e.1 ≠ []) :
    (unzip fs zp op outcome).1.isDir op = true
    ∧ (fs.isFile zp = false → (unzip fs zp op outcome).2.success = false) := by
  have hdir : (fs.mkdirParents op).isDir op = true :=
    Fs.mkdirParents_isDir_self fs op hne hclear
  have hfile : (fs.mkdirParents op).isFile zp = fs.isFile zp :=
    Fs.mkdirParents_isFile fs op zp
  by_cases hzf : (fs.mkdirParents op).isFile zp
  · -- the zip path is a file after the mkdir, i.e. it was one before
    constructor
    · simp only [unzip, hzf, not_true, if_false, if_neg]
      by_cases hsuf : pySuffix (pyName zp) = ".zip"
      · simp only [hsuf, not_true, if_false, if_neg]
        cases outcome with
        | badZip => exact hdir
        | raises e => exact hdir
        | ok es =>
            have hpre : ∀ e ∈ es, op ++ e.1 ≠ op := by
              intro e he heq
              have := congrArg List.length heq
              simp only [List.length_append] at this
              exact hrel es rfl e he (List.length_eq_zero.mp (by omega))
            have hkeep := Fs.foldl_setEntry_isDir es (fs.mkdirParents op) op op hpre
            by_cases hempty :
                ((es.foldl (fun acc e => acc.setEntry (op ++ e.1) e.2)
                  (fs.mkdirParents op)).under op).length = 0 <;>
              simp [hempty, hkeep, hdir]
      · simp [hsuf, hdir]
    · intro hnofile
      rw [hfile] at hzf
      rw [hzf] at hnofile
      cases hnofile
  · constructor
    · simp [unzip, hzf, hdir]
    · intro _
      simp [unzip, hzf]

theorem unzip_creates_output_dir_before_validation_witness :
    (unzip ⟨[]⟩ ["missing.zip"] ["out", "sub"] ZipOutcome.badZip).1.isDir ["out", "sub"] = true
    ∧ (unzip ⟨[]⟩ ["missing.zip"] ["out", "sub"] ZipOutcome.badZip).2.success = false := by
  have h := unzip_creates_output_dir_before_validation ⟨[]⟩ ["missing.zip"] ["out", "sub"]
    ZipOutcome.badZip (by decide) (by decide)
    (fun es hes => by cases hes)
  exact ⟨h.1, h.2 (by decide)⟩

/-- Counterexample to **C3** as stated: `rglob("*")` lists directories as well as
regular files, so `files_extracted` counts both.  Extracting an archive holding
one directory with one file inside reports `files_extracted = 2` while only one
regular file exists under the output directory. -/
theorem unzip_counts_directories_counterexample :
    (unzip ⟨[(["a.zip"], FsNode.file)]⟩ ["a.zip"] ["out"]
        (ZipOutcome.ok [(["d"], FsNode.dir), (["d", "f"], FsNode.file)])).2.success = true
    ∧ (unzip ⟨[(["a.zip"], FsNode.file)]⟩ ["a.zip"] ["out"]
        (ZipOutcome.ok [(["d"], FsNode.dir), (["d", "f"], FsNode.file)])).2.files_extracted
        = some 2
    ∧ (((unzip ⟨[(["a.zip"], FsNode.file)]⟩ ["a.zip"] ["out"]
        (ZipOutcome.ok [(["d"], FsNode.dir), (["d", "f"], FsNode.file)])).1.under
          ["out"]).filter (fun e => e.2 == FsNode.file)).length = 1 := by
  exact ⟨rfl, rfl, rfl⟩

/-- **C3 (amended).** For every successful `unzip`, `files_extracted` equals the
number of entries — files and directories — found under the output directory
afterwards; and an extraction that completes with zero entries under the output
directory yields a failure result. -/
theorem unzip_files_extracted_entry_count (fs : Fs) (zp op : PyPath)
    (outcome : ZipOutcome) :
    ((unzip fs zp op outcome).2.success = true →
      (unzip fs zp op outcome).2.files_extracted =
        some ((unzip fs zp op outcome).1.under op).length)
    ∧ (∀ es, outcome = ZipOutcome.ok es →
        ((unzip fs zp op outcome).1.under op).length = 0 →
        (unzip fs zp op outcome).2.success = false) := by
  by_cases hzf : (fs.mkdirParents op).isFile zp
  · by_cases hsuf : pySuffix (pyName zp) = ".zip"
    · cases outcome with
      | badZip => simp [unzip, hzf, hsuf]
      | raises e => simp [unzip, hzf, hsuf]
      | ok es =>
          by_cases hempty :
              ((es.foldl (fun acc e => acc.setEntry (op ++ e.1) e.2)
                (fs.mkdirParents op)).under op).length = 0
          · constructor
            · intro hsucc
              simp [unzip, hzf, hsuf, hempty] at hsucc
            · intro es2 hes2 _
              simp [unzip, hzf, hsuf, hempty]
          · constructor
            · intro _
              simp [unzip, hzf, hsuf, hempty]
            · intro es2 hes2 hlen
              cases hes2
              simp only [unzip, hzf, not_true, if_false, if_neg, hsuf] at hlen
              simp only [if_neg hempty] at hlen
              exact absurd hlen hempty
    · simp [unzip, hzf, hsuf]
  · simp [unzip, hzf]

theorem unzip_files_extracted_entry_count_witness :
    (unzip ⟨[(["a.zip"], FsNode.file)]⟩ ["a.zip"] ["out"]
        (ZipOutcome.ok [(["d"], FsNode.dir), (["d", "f"], FsNode.file)])).2.files_extracted
      = some 2
    ∧ (unzip ⟨[(["b.zip"], FsNode.file)]⟩ ["b.zip"] ["out"]
        (ZipOutcome.ok [])).2.success = false := by
  have h1 := (unzip_files_extracted_entry_count ⟨[(["a.zip"], FsNode.file)]⟩ ["a.zip"] ["out"]
    (ZipOutcome.ok [(["d"], FsNode.dir), (["d", "f"], FsNode.file)])).1 rfl
  have h2 := (unzip_files_extracted_entry_count ⟨[(["b.zip"], FsNode.file)]⟩ ["b.zip"] ["out"]
    (ZipOutcome.ok [])).2 [] rfl rfl
  exact ⟨by rw [h1]; rfl, h2⟩


/-! ## `InoFileHelper.copy_files` (`file_helper.py` lines 137–200)

The traversal (`rglob("*")` / `iterdir()` filtered by `is_file()`) is taken as
the given list of source files in traversal order; whether an individual
`shutil.copy2` succeeds is each file's oracle bit.  The state threads the
destination directory contents, the written log lines, the error flag, and the
number of copies attempted. -/

/-- A source file as seen by the copy loop: `Path.stem`, `Path.suffix`, and the
oracle telling whether `shutil.copy2` succeeds for it. -/
structure SrcFile where
  stem : String
  suffix : String
  copyOk : Bool
deriving Repr, DecidableEq

/-- `Path.name` of a source file. -/
def SrcFile.name (f : SrcFile) : String := f.stem ++ f.suffix

/-- Python `str.lower()` (character-wise lowering). -/
def pyLower (s : String) : String := String.mk (s.toList.map Char.toLower)

/-- Python `f"{idx:03}"`. -/
def pad3 (n : Nat) : String :=
  let s := toString n
  String.mk (List.replicate (3 - s.length) '0') ++ s

/-- State threaded through the copy loop. -/
structure CopyState where
  destNames : List String
  copied : List String
  logLines : List String
  error : Bool
  attempted : Nat
deriving Repr, DecidableEq

/-- One iteration of the `for idx, file in enumerate(files, start=1)` loop. -/
def copyStep (rename_files : Bool) (prefix_name : String) (st : CopyState)
    (item : Nat × SrcFile) : CopyState :=
  let idx := item.1
  let file := item.2
  let ext0 := pyLower file.suffix
  let st :=
    if ext0 = "" then
      { st with logLines := st.logLines ++ ["⚠️ file with no extension: " ++ file.name] }
    else st
  let ext := if ext0 = "" then file.name else ext0
  let pair :=
    if rename_files then (st, prefix_name ++ "_" ++ pad3 idx ++ ext)
    else if file.stem.trim = "" then
      ({ st with logLines :=
          st.logLines ++ ["⚠️ Empty or invalid filename detected: " ++ file.name] },
       "unnamed_" ++ pad3 idx ++ ext)
    else (st, file.name)
  let st := pair.1
  let new_name := pair.2
  let st :=
    if new_name ∈ st.destNames then
      { st with logLines :=
          st.logLines ++ ["⚠️ target file trying to copy to is already exist: " ++ new_name] }
    else st
  if file.copyOk then
    { st with
      destNames := st.destNames ++ [new_name]
      copied := st.copied ++ [new_name]
      logLines := st.logLines ++ ["✅ Copied: " ++ file.name ++ " => " ++ new_name]
      attempted := st.attempted + 1 }
  else
    { st with
      logLines := st.logLines ++ ["❌ Failed to copy " ++ file.name ++ " → " ++ new_name]
      error := true
      attempted := st.attempted + 1 }

/-- `InoFileHelper.copy_files`: iterate over every file (no short-circuit), then
report a single aggregate result.  `destExisting` is the destination directory's
contents before the call; the `copy_log.txt` contents are `logLines` (written
whenever nonempty). -/
def copy_files (destExisting : List String) (files : List SrcFile)
    (rename_files : Bool) (prefix_name : String) : CopyState × FhResult :=
  let st0 : CopyState :=
    { destNames := destExisting, copied := [], logLines := [], error := false, attempted := 0 }
  let st := (List.enumFrom 1 files).foldl (copyStep rename_files prefix_name) st0
  (st,
   if st.error then
     { success := false, msg := "Failed to copy files, see log file: copy_log.txt" }
   else
     { success := true, msg := "📂 Coping and renaming files completed" })

/-- Two appends with unequal same-length left parts differ. -/
theorem append_ne_of_ne_left (s1 s2 a b : String)
    (hlen : s1.length = s2.length) (hne : s1 ≠ s2) : s1 ++ a ≠ s2 ++ b := by
  intro h
  apply hne
  have hdata : s1.data ++ a.data = s2.data ++ b.data := by
    have h2 := congrArg String.data h
    simpa [String.data_append] using h2
  have hld : s1.data.length = s2.data.length := hlen
  have hd := (List.append_inj hdata hld).1
  cases s1
  cases s2
  exact congrArg String.mk hd

/-- **C6.** Copying a source directory of exactly three files (each with an
extension) into an empty destination with `rename_files=True`,
`prefix_name="File"`: the copied files are `File_001.<ext>`, `File_002.<ext>`,
`File_003.<ext>` with the 3-digit zero-padded index assigned in traversal
order, the copy log holds one line per file, every file is attempted even when
an earlier copy fails, and the overall result is a failure exactly when at
least one copy failed. -/
theorem copy_files_three_renamed (f1 f2 f3 : SrcFile)
    (he1 : pyLower f1.suffix ≠ "") (he2 : pyLower f2.suffix ≠ "")
    (he3 : pyLower f3.suffix ≠ "") :
    (copy_files [] [f1, f2, f3] true "File").1.attempted = 3
    ∧ (copy_files [] [f1, f2, f3] true "File").1.logLines.length = 3
    ∧ (f1.copyOk = true → f2.copyOk = true → f3.copyOk = true →
        (copy_files [] [f1, f2, f3] true "File").1.copied =
          ["File_001" ++ pyLower f1.suffix, "File_002" ++ pyLower f2.suffix,
           "File_003" ++ pyLower f3.suffix]
        ∧ (copy_files [] [f1, f2, f3] true "File").2.success = true)
    ∧ ((copy_files [] [f1, f2, f3] true "File").2.success = false ↔
        ¬(f1.copyOk = true ∧ f2.copyOk = true ∧ f3.copyOk = true)) := by
  have hA : ("File_" ++ pad3 1) = "File_001" := by decide
  have hB : ("File_" ++ pad3 2) = "File_002" := by decide
  have hC : ("File_" ++ pad3 3) = "File_003" := by decide
  have hne21 : "File_002" ++ pyLower f2.suffix ≠ "File_001" ++ pyLower f1.suffix :=
    append_ne_of_ne_left _ _ _ _ (by decide) (by decide)
  have hne31 : "File_003" ++ pyLower f3.suffix ≠ "File_001" ++ pyLower f1.suffix :=
    append_ne_of_ne_left _ _ _ _ (by decide) (by decide)
  have hne32 : "File_003" ++ pyLower f3.suffix ≠ "File_002" ++ pyLower f2.suffix :=
    append_ne_of_ne_left _ _ _ _ (by decide) (by decide)
  cases hc1 : f1.copyOk <;> cases hc2 : f2.copyOk <;> cases hc3 : f3.copyOk <;>
    simp [copy_files, copyStep, List.enumFrom, hA, hB, hC, he1, he2, he3,
      hne21, hne31, hne32, hc1, hc2, hc3]

theorem copy_files_three_renamed_witness :
    (copy_files [] [⟨"a", ".PNG", true⟩, ⟨"b", ".jpg", true⟩, ⟨"c", ".txt", true⟩]
        true "File").1.attempted = 3
    ∧ (copy_files [] [⟨"a", ".PNG", true⟩, ⟨"b", ".jpg", true⟩, ⟨"c", ".txt", true⟩]
        true "File").1.copied = ["File_001.png", "File_002.jpg", "File_003.txt"]
    ∧ (copy_files [] [⟨"a", ".PNG", true⟩, ⟨"b", ".jpg", true⟩, ⟨"c", ".txt", true⟩]
        true "File").2.success = true := by
  have h := copy_files_three_renamed ⟨"a", ".PNG", true⟩ ⟨"b", ".jpg", true⟩
    ⟨"c", ".txt", true⟩ (by decide) (by decide) (by decide)
  have hc := h.2.2.1 rfl rfl rfl
  exact ⟨h.1, by rw [hc.1]; decide, hc.2⟩


/-! ## `InoThumbnailHelper.image_generate_square_thumbnails`
(`thumbnail_helper.py` lines 18–147)

Pillow images are modelled by their observable attributes: pixel dimensions,
mode, and whether embedded metadata is present.  Pixel contents are not
modelled, so `GaussianBlur` and `paste` act only on the attributes they can
change.  The float arithmetic sizing the blurred background is modelled over
`ℚ` with Python's banker's rounding; its result is normalised away by the
subsequent crop, so no conclusion depends on it.  Whether the Pillow processing
inside the `try` block raises is the oracle `failAt`: `some (k, e)` means the
processing raised message `e` after `k` thumbnails were saved. -/

/-- A Pillow image: dimensions, mode, and whether metadata (EXIF/ICC) is attached. -/
structure PilImage where
  width : Nat
  height : Nat
  mode : String
  hasMeta : Bool
deriving Repr, DecidableEq

/-- `Image.crop((left, top, right, bottom))`: the result has the box's size
(PIL pads when the box exceeds the source). -/
def PilImage.cropBox (img : PilImage) (left top right bottom : Int) : PilImage :=
  { img with width := (right - left).toNat, height := (bottom - top).toNat }

/-- `Image.resize((w, h))`. -/
def PilImage.resizeTo (img : PilImage) (w h : Nat) : PilImage :=
  { img with width := w, height := h }

/-- `Image.convert(m)`. -/
def PilImage.convertMode (img : PilImage) (m : String) : PilImage :=
  { img with mode := m }

/-- `Image.filter(ImageFilter.GaussianBlur(radius))`: pixel-only. -/
def PilImage.gaussianBlur (img : PilImage) : PilImage := img

/-- `bg.paste(fg, pos)`: mutates `bg`'s pixels only. -/
def PilImage.paste (bg : PilImage) (_fg : PilImage) : PilImage := bg

/-- `Image.new(mode, size)`: a fresh image with no metadata. -/
def pilNew (m : String) (w h : Nat) : PilImage :=
  { width := w, height := h, mode := m, hasMeta := false }

/-- `ImageOps.exif_transpose`: applies the EXIF orientation; `swaps` records
whether that orientation exchanges the axes. -/
def exifTranspose (img : PilImage) (swaps : Bool) : PilImage :=
  if swaps then { img with width := img.height, height := img.width } else img

/-- Python `round` on a rational: nearest integer, ties to even. -/
def pyRound (q : ℚ) : Int :=
  let f := Int.floor q
  let r := q - f
  if r < 1 / 2 then f
  else if r > 1 / 2 then f + 1
  else if Even f then f else f + 1

/-- The square-preparation step (`thumbnail_helper.py` lines 75–109):
center-crop when `crop`, else paste the image centered onto a blurred
cover-scaled square background. -/
def mkSquare (im : PilImage) (crop : Bool) : PilImage :=
  let width := im.width
  let height := im.height
  if crop then
    let side : Int := min width height
    let left := ((width : Int) - side) / 2
    let top := ((height : Int) - side) / 2
    im.cropBox left top (left + side) (top + side)
  else
    let side : Nat := max width height
    let im_rgb := if im.mode = "RGB" then im else im.convertMode "RGB"
    let scale : ℚ := if min width height ≠ 0 then (side : ℚ) / (min width height : ℚ) else 1
    let bg_w := max 1 (pyRound (width * scale)).toNat
    let bg_h := max 1 (pyRound (height * scale)).toNat
    let bg := im_rgb.resizeTo bg_w bg_h
    let bg_left := max 0 (((bg_w : Int) - side) / 2)
    let bg_top := max 0 (((bg_h : Int) - side) / 2)
    let bg := bg.cropBox bg_left bg_top (bg_left + side) (bg_top + side)
    let bg := bg.gaussianBlur
    bg.paste im_rgb

/-- One output file written by the per-size loop. -/
structure SavedThumb where
  fileName : String
  width : Nat
  height : Nat
  mode : String
  hasMeta : Bool
  format : String
deriving Repr, DecidableEq

/-- The body of `for size in norm_sizes` (`thumbnail_helper.py` lines 114–142):
resize to `size × size`, force RGB, strip metadata through a fresh image, save
as JPEG under `{stem}_ino_t_{size}_.jpg`. -/
def saveThumb (square : PilImage) (stem : String) (size : Int) : SavedThumb :=
  let resized := square.resizeTo size.toNat size.toNat
  let resized := if ¬(resized.mode = "RGB" ∨ resized.mode = "L") then
      resized.convertMode "RGB" else resized
  let rgb_img := if ¬(resized.mode = "RGB") then resized.convertMode "RGB" else resized
  let clean := (pilNew "RGB" rgb_img.width rgb_img.height).paste rgb_img
  { fileName := stem ++ "_ino_t_" ++ toString size ++ "_.jpg"
    width := clean.width, height := clean.height, mode := clean.mode
    hasMeta := clean.hasMeta, format := "JPEG" }

/-- The size-normalisation loop (`thumbnail_helper.py` lines 49–58):
`int(s)` each entry, reject non-positive values, deduplicate keeping order. -/
def normSizes : List PyIntArg → List Int → Except String (List Int)
  | [], acc => Except.ok acc
  | s :: rest, acc =>
      match s with
      | PyIntArg.nonInt => Except.error "Invalid size value"
      | PyIntArg.int v =>
          if v ≤ 0 then Except.error ("Size must be positive, got " ++ toString v)
          else normSizes rest (if v ∈ acc then acc else acc ++ [v])

/-- Result dictionary of the thumbnail generator. -/
structure ThumbResult where
  success : Bool
  msg : String
  output_paths : List String
deriving Repr, DecidableEq

/-- `InoThumbnailHelper.image_generate_square_thumbnails`: validations, then the
`try` loop.  The first component is the returned dictionary, the second the
files written to disk.  On `failAt = some (k, e)` the processing raises after
`k` saves; the `except` branch would produce
`ino_err ("Error generating thumbnails: " ++ e)`, but the bare `return` in the
`finally` block (line 147) replaces any pending return from the `try`/`except`
blocks, so once validation passes the function returns the `ino_ok` dictionary
with the paths accumulated so far — even when processing raised. -/
def image_generate_square_thumbnails (pillowAvailable inputIsFile : Bool)
    (img : PilImage) (exifSwaps : Bool) (stem : String) (quality : PyIntArg)
    (sizes : List PyIntArg) (crop : Bool) (failAt : Option (Nat × String)) :
    ThumbResult × List SavedThumb :=
  if ¬ pillowAvailable then
    ({ success := false, msg := "Pillow (PIL) is required to use InoThumbnailHelper"
       output_paths := [] }, [])
  else if ¬ inputIsFile then
    ({ success := false, msg := "Input image not found", output_paths := [] }, [])
  else
    match quality with
    | PyIntArg.nonInt =>
        ({ success := false, msg := "Invalid quality value", output_paths := [] }, [])
    | PyIntArg.int q =>
        if ¬ (1 ≤ q ∧ q ≤ 95) then
          ({ success := false, msg := "Quality must be between 1 and 95, got " ++ toString q
             output_paths := [] }, [])
        else
          match normSizes sizes [] with
          | Except.error msg => ({ success := false, msg := msg, output_paths := [] }, [])
          | Except.ok norm_sizes =>
              let original := exifTranspose img exifSwaps
              let square := mkSquare original crop
              let savedCount :=
                match failAt with
                | some kv => min kv.1 norm_sizes.length
                | none => norm_sizes.length
              let saved := (norm_sizes.take savedCount).map (saveThumb square stem)
              ({ success := true, msg := "Thumbnail generated"
                 output_paths := saved.map (·.fileName) }, saved)

/-- **C2 (code bug).** With valid arguments (input exists, quality 80,
sizes `[256]`) and processing that raises during the JPEG save, the function
still returns a success result (`success = True`, `msg = "Thumbnail generated"`),
because the `return` in the `finally` block overrides the `except` branch's
failure return: the claimed failure result is never produced. -/
theorem thumbnails_success_returned_on_processing_exception :
    (image_generate_square_thumbnails true true
        { width := 4000, height := 2000, mode := "RGB", hasMeta := true } false "img"
        (PyIntArg.int 80) [PyIntArg.int 256] false (some (0, "JPEG save failed"))).1
      = { success := true, msg := "Thumbnail generated", output_paths := [] } := by
  rfl

/-- Reassociation helper for mixed literal/variable string appends. -/
theorem append3_left (st a b c d : String) (h : a ++ b ++ c = d) :
    st ++ a ++ b ++ c = st ++ d := by
  rw [String.append_assoc, String.append_assoc, ← String.append_assoc a, h]

theorem saveThumb_spec (square : PilImage) (stem : String) (s : Int) :
    saveThumb square stem s =
      { fileName := stem ++ "_ino_t_" ++ toString s ++ "_.jpg"
        width := s.toNat, height := s.toNat, mode := "RGB"
        hasMeta := false, format := "JPEG" } := by
  simp only [saveThumb, PilImage.resizeTo, PilImage.convertMode, PilImage.paste, pilNew]
  split <;> split <;> rfl

/-- **C9.** Whenever validation passes and processing completes: every
normalised requested size yields exactly one output named
`{stem}_ino_t_{size}_.jpg`, saved as JPEG in mode RGB (no transparency), with
metadata stripped, of exactly `size × size` pixels; in particular a 4000×2000
source with `sizes = [256, 512]` and `crop = False` yields exactly the files
`<stem>_ino_t_256_.jpg` (256×256) and `<stem>_ino_t_512_.jpg` (512×512). -/
theorem thumbnails_outputs (img : PilImage) (exifSwaps : Bool) (stem : String)
    (q : Int) (hq : 1 ≤ q ∧ q ≤ 95) (sizes : List PyIntArg) (ns : List Int)
    (hns : normSizes sizes [] = Except.ok ns) (crop : Bool) :
    ((image_generate_square_thumbnails true true img exifSwaps stem (PyIntArg.int q)
        sizes crop none).2.map (·.fileName)
      = ns.map (fun s => stem ++ "_ino_t_" ++ toString s ++ "_.jpg"))
    ∧ (∀ t ∈ (image_generate_square_thumbnails true true img exifSwaps stem (PyIntArg.int q)
          sizes crop none).2, ∃ s ∈ ns,
        t = { fileName := stem ++ "_ino_t_" ++ toString s ++ "_.jpg"
              width := s.toNat, height := s.toNat, mode := "RGB"
              hasMeta := false, format := "JPEG" })
    ∧ (∀ (img2 : PilImage) (stem2 : String),
        img2.width = 4000 → img2.height = 2000 →
        (image_generate_square_thumbnails true true img2 false stem2 (PyIntArg.int q)
            [PyIntArg.int 256, PyIntArg.int 512] false none).2 =
          [{ fileName := stem2 ++ "_ino_t_256_.jpg", width := 256, height := 256
             mode := "RGB", hasMeta := false, format := "JPEG" },
           { fileName := stem2 ++ "_ino_t_512_.jpg", width := 512, height := 512
             mode := "RGB", hasMeta := false, format := "JPEG" }]) := by
  have h95 : ¬ 95 < q := not_lt.mpr hq.2
  have hmain : (image_generate_square_thumbnails true true img exifSwaps stem
      (PyIntArg.int q) sizes crop none).2
      = ns.map (fun s => saveThumb (mkSquare (exifTranspose img exifSwaps) crop) stem s) := by
    simp [image_generate_square_thumbnails, hns, List.take_length, hq.1, h95]
  refine ⟨?_, ?_, ?_⟩
  · rw [hmain, List.map_map]
    refine List.map_congr_left (fun s _ => ?_)
    simp [saveThumb_spec]
  · intro t ht
    rw [hmain] at ht
    rcases List.mem_map.mp ht with ⟨s, hs, rfl⟩
    exact ⟨s, hs, saveThumb_spec _ _ _⟩
  · intro img2 stem2 _ _
    have hns2 : normSizes [PyIntArg.int 256, PyIntArg.int 512] [] =
        Except.ok [(256 : Int), 512] := by rfl
    have h2 : (image_generate_square_thumbnails true true img2 false stem2
        (PyIntArg.int q) [PyIntArg.int 256, PyIntArg.int 512] false none).2
        = [(256 : Int), 512].map
            (fun s => saveThumb (mkSquare (exifTranspose img2 false) false) stem2 s) := by
      simp [image_generate_square_thumbnails, hns2, List.take_length, hq.1, h95]
    rw [h2]
    simp only [List.map_cons, List.map_nil, saveThumb_spec]
    have hn1 : stem2 ++ "_ino_t_" ++ toString (256 : Int) ++ "_.jpg"
        = stem2 ++ "_ino_t_256_.jpg" := append3_left _ _ _ _ _ (by decide)
    have hn2 : stem2 ++ "_ino_t_" ++ toString (512 : Int) ++ "_.jpg"
        = stem2 ++ "_ino_t_512_.jpg" := append3_left _ _ _ _ _ (by decide)
    simp [hn1, hn2]

theorem thumbnails_outputs_witness :
    (image_generate_square_thumbnails true true
        { width := 4000, height := 2000, mode := "RGBA", hasMeta := true } false "photo"
        (PyIntArg.int 50) [PyIntArg.int 256, PyIntArg.int 512] false none).2 =
      [{ fileName := "photo_ino_t_256_.jpg", width := 256, height := 256
         mode := "RGB", hasMeta := false, format := "JPEG" },
       { fileName := "photo_ino_t_512_.jpg", width := 512, height := 512
         mode := "RGB", hasMeta := false, format := "JPEG" }] := by
  have h := thumbnails_outputs
    { width := 4000, height := 2000, mode := "RGBA", hasMeta := true } false "photo"
    50 (by decide) [PyIntArg.int 256, PyIntArg.int 512] [256, 512] rfl false
  exact h.2.2 { width := 4000, height := 2000, mode := "RGBA", hasMeta := true } "photo"
    rfl rfl


/-! ## `InoLogHelper` rotating log stream (`log_helper.py`)

A log segment is one `.inolog` file: its numeric suffix and the whole lines
appended to it (each `add` writes one JSON line in a single append).  The log
directory holds exactly this stream's segments, in creation order.

`InoFileHelper.get_last_file` and `InoFileHelper.increment_batch_name` are
called by `log_helper.py` but are not present in the repository's
`file_helper.py`; they are modelled from the specification (§4.2). -/

/-- Python `f"{n:05}"`: decimal digits zero-padded to width 5 (wider when the
number needs more digits). -/
def pad5 (n : Nat) : String :=
  let s := toString n
  String.mk (List.replicate (5 - s.length) '0') ++ s

/-- One rotation segment: the numeric suffix parsed from the stem's trailing
digits, and the appended lines (one element per `add` call). -/
structure LogSegment where
  suffix : Nat
  entries : List String
deriving Repr, DecidableEq

/-- The rendered file name of a segment: `{logName}_{5-digit suffix}.inolog`. -/
def segmentName (log_name : String) (suffix : Nat) : String :=
  log_name ++ "_" ++ pad5 suffix ++ ".inolog"

/-- `Path.stat().st_size` of a segment: each line's length plus its newline. -/
def segSize (seg : LogSegment) : Nat :=
  (seg.entries.map (fun e => e.length + 1)).sum

/-- The state of one `InoLogHelper`: directory, base name, size threshold, the
segments in creation order, and the initialisation flag. -/
structure LogState where
  log_name : String
  max_file_size_bytes : Nat
  segments : List LogSegment
  initialized : Bool
deriving Repr, DecidableEq

/-- Modelled from the spec: `InoFileHelper.get_last_file` is absent from
`src/file_helper/file_helper.py`; §4.2 has `initialize()` "scan the target
directory for the most recently created segment whose name matches the expected
suffix pattern".  The directory holds this stream's segments in creation order,
so the most recently created one is the last; the lookup fails exactly when the
directory holds none. -/
def get_last_file (segments : List LogSegment) : Option LogSegment :=
  segments.getLast?

/-- Modelled from the spec: `InoFileHelper.increment_batch_name` is absent from
`src/file_helper/file_helper.py`; §4.2 has "incrementing means parsing the
trailing digits and adding one, re-zero-padding to 5 digits".  Segments store
their stem's trailing digits already parsed (`LogSegment.suffix`), so
incrementing the batch name increments that number; `segmentName` re-renders it
zero-padded to 5 digits. -/
def increment_batch_name (suffix : Nat) : Nat :=
  suffix + 1

/-- `InoLogHelper._create_log_file` (`log_helper.py` lines 70–90): reuse the
most recent segment when it is under the size threshold, else create a segment
with the incremented name; with no existing segment, create
`{log_name}_00001.inolog`.  (Every modelled segment has the `.inolog` suffix,
so the code's `current_file.suffix == ".inolog"` check holds.) -/
def _create_log_file (st : LogState) : LogState :=
  match get_last_file st.segments with
  | some current_file =>
      if segSize current_file < st.max_file_size_bytes then
        st
      else
        { st with segments :=
            st.segments ++ [{ suffix := increment_batch_name current_file.suffix, entries := [] }] }
  | none =>
      { st with segments := st.segments ++ [{ suffix := 1, entries := [] }] }

/-- `InoLogHelper._ensure_initialized` (`log_helper.py` lines 64–68). -/
def ensure_initialized (st : LogState) : LogState :=
  if st.initialized then st
  else { _create_log_file st with initialized := true }

/-- Append one line to the current (= most recently created) segment in a
single write. -/
def appendToLast (segments : List LogSegment) (entry : String) : List LogSegment :=
  match segments.getLast? with
  | none => segments
  | some seg => segments.dropLast ++ [{ seg with entries := seg.entries ++ [entry] }]

/-- `InoLogHelper.add` (`log_helper.py` lines 92–136): ensure initialisation,
rotate when the current file's size is at or above the threshold, then append
the serialized entry (`entry` is the JSON line) in one write. -/
def LogState.add (st : LogState) (entry : String) : LogState :=
  let st := ensure_initialized st
  let st :=
    match get_last_file st.segments with
    | some current => if st.max_file_size_bytes ≤ segSize current then _create_log_file st else st
    | none => st
  { st with segments := appendToLast st.segments entry }

theorem getLast?_append_single {α : Type} (l : List α) (x : α) :
    (l ++ [x]).getLast? = some x := by
  simp [List.getLast?_append]

/-- **C1.** For an initialized log stream: when the current segment's size has
reached the configured maximum, `add` creates a new segment whose numeric
suffix is exactly one greater than the previous segment's before writing, and
writes the entry wholly into that new segment (whose rendered name is the
5-digit zero-padded successor); when the current segment is under the maximum,
`add` appends the entry wholly to that same segment.  In both cases the entry
lands as one undivided line in exactly one segment. -/
theorem log_rotation_spec (st : LogState) (entry : String) (cur : LogSegment)
    (hinit : st.initialized = true)
    (hcur : get_last_file st.segments = some cur) :
    (st.max_file_size_bytes ≤ segSize cur →
      (st.add entry).segments =
        st.segments ++ [{ suffix := cur.suffix + 1, entries := [entry] }]
      ∧ segmentName st.log_name (cur.suffix + 1) =
          st.log_name ++ "_" ++ pad5 (cur.suffix + 1) ++ ".inolog")
    ∧ (segSize cur < st.max_file_size_bytes →
      (st.add entry).segments =
        st.segments.dropLast ++ [{ cur with entries := cur.entries ++ [entry] }]) := by
  have hens : ensure_initialized st = st := by
    simp [ensure_initialized, hinit]
  constructor
  · intro hfull
    have hnotlt : ¬ segSize cur < st.max_file_size_bytes := not_lt.mpr hfull
    constructor
    · have hrot : _create_log_file st =
          { st with segments :=
              st.segments ++ [{ suffix := cur.suffix + 1, entries := [] }] } := by
        simp [_create_log_file, hcur, hnotlt, increment_batch_name]
      simp only [LogState.add, hens, hcur, if_pos hfull, hrot]
      simp [appendToLast, getLast?_append_single]
    · rfl
  · intro hsmall
    have hnotfull : ¬ st.max_file_size_bytes ≤ segSize cur := not_le.mpr hsmall
    have hlast : st.segments.getLast? = some cur := hcur
    simp only [LogState.add, hens, hcur, if_neg hnotfull, appendToLast, hlast]

theorem log_rotation_spec_witness :
    (LogState.add
        { log_name := "Worker", max_file_size_bytes := 4
          segments := [{ suffix := 1, entries := ["abc"] }], initialized := true }
        "x").segments =
      [{ suffix := 1, entries := ["abc"] }, { suffix := 2, entries := ["x"] }]
    ∧ segmentName "Worker" 2 = "Worker_00002.inolog"
    ∧ (LogState.add
        { log_name := "Worker", max_file_size_bytes := 9
          segments := [{ suffix := 1, entries := ["abc"] }], initialized := true }
        "x").segments =
      [{ suffix := 1, entries := ["abc", "x"] }] := by
  have h1 := (log_rotation_spec
    { log_name := "Worker", max_file_size_bytes := 4
      segments := [{ suffix := 1, entries := ["abc"] }], initialized := true }
    "x" { suffix := 1, entries := ["abc"] } rfl rfl).1 (by decide)
  have h2 := (log_rotation_spec
    { log_name := "Worker", max_file_size_bytes := 9
      segments := [{ suffix := 1, entries := ["abc"] }], initialized := true }
    "x" { suffix := 1, entries := ["abc"] } rfl rfl).2 (by decide)
  refine ⟨by rw [h1.1]; rfl, by rw [h1.2]; decide, by rw [h2]; rfl⟩


/-! ## `InoJsonHelper.save_json_as_json` / `read_json_from_file` (`json_helper.py`)

`save_json_as_json` writes `json.dumps(json_data, indent=2, ensure_ascii=False)`
to the file; `read_json_from_file` reads the file and returns
`json.loads(content)`.  Both stdlib codec functions are modelled over an
explicit JSON value type:

* numbers are integers (`json.dumps`/`loads` handle floats as well; IEEE float
  formatting is outside this embedding, so the value type carries `Int`);
* strings are Unicode scalar sequences, escaped exactly as
  `json.dumps(..., ensure_ascii=False)` escapes them (`\\`, `\"`, the short
  control escapes, `\u00XX` for the remaining chars below `0x20`); the parser
  additionally accepts `/` escapes and `\uXXXX` basic-plane escapes as
  `json.loads` does (surrogate pairs are outside the model);
* objects are insertion-ordered dictionaries; the parser applies Python `dict`
  semantics to duplicate keys (last value wins at the first occurrence's
  position). -/

/-- A Python value serializable by the `json` module (numbers restricted to
integers, see above). -/
inductive PyJson where
  | null
  | bool (b : Bool)
  | int (n : Int)
  | str (sv : String)
  | arr (items : List PyJson)
  | obj (members : List (String × PyJson))
deriving Repr

/-- Pairwise-distinct key list (what an actual Python `dict` guarantees). -/
def keysNodup : List String → Bool
  | [] => true
  | k :: ks => (!(ks.any (fun a => a == k))) && keysNodup ks

mutual
/-- The value came from Python data: every object is a `dict`, so every member
list has pairwise-distinct keys. -/
def PyJson.wfDict : PyJson → Bool
  | PyJson.null => true
  | PyJson.bool _ => true
  | PyJson.int _ => true
  | PyJson.str _ => true
  | PyJson.arr items => wfArr items
  | PyJson.obj ms => keysNodup (ms.map (·.1)) && wfObj ms
def wfArr : List PyJson → Bool
  | [] => true
  | x :: xs => x.wfDict && wfArr xs
def wfObj : List (String × PyJson) → Bool
  | [] => true
  | kv :: ms => kv.2.wfDict && wfObj ms
end

/-- Decimal digit characters of a natural number, most significant first. -/
def natChars (n : Nat) : List Char :=
  if h : n < 10 then [Char.ofNat (48 + n)]
  else natChars (n / 10) ++ [Char.ofNat (48 + n % 10)]
termination_by n
decreasing_by exact Nat.div_lt_self (by omega) (by omega)

/-- Python `repr` of an `int`: optional minus sign, then decimal digits. -/
def intChars (n : Int) : List Char :=
  if n < 0 then '-' :: natChars n.natAbs else natChars n.natAbs

/-- Lowercase hex digit. -/
def toHexChar (n : Nat) : Char :=
  if n < 10 then Char.ofNat (48 + n) else Char.ofNat (87 + n)

/-- How `json.dumps(..., ensure_ascii=False)` escapes one character. -/
def escapeChar (c : Char) : List Char :=
  if c = '\\' then ['\\', '\\']
  else if c = '"' then ['\\', '"']
  else if c = Char.ofNat 8 then ['\\', 'b']
  else if c = Char.ofNat 12 then ['\\', 'f']
  else if c = '\n' then ['\\', 'n']
  else if c = '\r' then ['\\', 'r']
  else if c = '\t' then ['\\', 't']
  else if c.toNat < 32 then
    ['\\', 'u', toHexChar (c.toNat / 4096 % 16), toHexChar (c.toNat / 256 % 16),
     toHexChar (c.toNat / 16 % 16), toHexChar (c.toNat % 16)]
  else [c]

/-- A rendered JSON string literal, quotes included. -/
def dumpStr (sv : String) : List Char :=
  '"' :: (sv.toList.flatMap escapeChar ++ ['"'])

/-- `indent=2` indentation for nesting depth `d`. -/
def indentChars (d : Nat) : List Char :=
  List.replicate (2 * d) ' '

mutual
/-- `json.dumps(v, indent=2, ensure_ascii=False)` at nesting depth `d`. -/
def dumpVal (d : Nat) : PyJson → List Char
  | PyJson.null => ['n', 'u', 'l', 'l']
  | PyJson.bool true => ['t', 'r', 'u', 'e']
  | PyJson.bool false => ['f', 'a', 'l', 's', 'e']
  | PyJson.int n => intChars n
  | PyJson.str sv => dumpStr sv
  | PyJson.arr [] => ['[', ']']
  | PyJson.arr (x :: xs) =>
      '[' :: '\n' :: (indentChars (d + 1) ++ (dumpVal (d + 1) x ++ (dumpArrTail (d + 1) xs
        ++ '\n' :: (indentChars d ++ [']']))))
  | PyJson.obj [] => ['{', '}']
  | PyJson.obj (m :: ms) =>
      '{' :: '\n' :: (indentChars (d + 1) ++ (dumpMember (d + 1) m ++ (dumpObjTail (d + 1) ms
        ++ '\n' :: (indentChars d ++ ['}']))))
/-- One object member: rendered key, `": "`, rendered value. -/
def dumpMember (d : Nat) : String × PyJson → List Char
  | (k, v) => dumpStr k ++ ':' :: ' ' :: dumpVal d v
/-- `",\n" + indent` before each later array element. -/
def dumpArrTail (d : Nat) : List PyJson → List Char
  | [] => []
  | x :: xs => ',' :: '\n' :: (indentChars d ++ (dumpVal d x ++ dumpArrTail d xs))
/-- `",\n" + indent` before each later object member. -/
def dumpObjTail (d : Nat) : List (String × PyJson) → List Char
  | [] => []
  | m :: ms => ',' :: '\n' :: (indentChars d ++ (dumpMember d m ++ dumpObjTail d ms))
end

/-- `json.dumps(v, indent=2, ensure_ascii=False)`. -/
def pyDumps (v : PyJson) : String :=
  String.mk (dumpVal 0 v)

/-- JSON whitespace. -/
def isJsonWs (c : Char) : Bool :=
  c = ' ' || c = '\t' || c = '\n' || c = '\r'

/-- Skip leading whitespace. -/
def dropWs (cs : List Char) : List Char :=
  cs.dropWhile isJsonWs

/-- Value of a hex digit. -/
def hexDigitVal (c : Char) : Option Nat :=
  if '0' ≤ c ∧ c ≤ '9' then some (c.toNat - 48)
  else if 'a' ≤ c ∧ c ≤ 'f' then some (c.toNat - 87)
  else if 'A' ≤ c ∧ c ≤ 'F' then some (c.toNat - 55)
  else none

/-- The short escapes `json.loads` accepts. -/
def escDecode (c : Char) : Option Char :=
  if c = '"' then some '"'
  else if c = '\\' then some '\\'
  else if c = '/' then some '/'
  else if c = 'b' then some (Char.ofNat 8)
  else if c = 'f' then some (Char.ofNat 12)
  else if c = 'n' then some '\n'
  else if c = 'r' then some '\r'
  else if c = 't' then some '\t'
  else none

/-- Parse a string literal's body after the opening quote. -/
def parseStringBody (acc : List Char) : List Char → Option (String × List Char)
  | [] => none
  | '"' :: rest => some (String.mk acc.reverse, rest)
  | '\\' :: 'u' :: h1 :: h2 :: h3 :: h4 :: rest =>
      match hexDigitVal h1, hexDigitVal h2, hexDigitVal h3, hexDigitVal h4 with
      | some a, some b, some c, some d =>
          parseStringBody (Char.ofNat (((a * 16 + b) * 16 + c) * 16 + d) :: acc) rest
      | _, _, _, _ => none
  | '\\' :: e :: rest =>
      match escDecode e with
      | some ch => parseStringBody (ch :: acc) rest
      | none => none
  | c :: rest => parseStringBody (c :: acc) rest

/-- Decimal value of a digit run. -/
def digitsToNat (ds : List Char) : Nat :=
  ds.foldl (fun acc c => acc * 10 + (c.toNat - 48)) 0

/-- Parse an integer literal (the number grammar restricted to integers). -/
def parseIntToken (cs : List Char) : Option (Int × List Char) :=
  match cs with
  | [] => none
  | c :: rest =>
      if c = '-' then
        let ds := rest.takeWhile Char.isDigit
        let r := rest.dropWhile Char.isDigit
        if ds.isEmpty then none else some (-(digitsToNat ds : Int), r)
      else
        let ds := (c :: rest).takeWhile Char.isDigit
        let r := (c :: rest).dropWhile Char.isDigit
        if ds.isEmpty then none else some ((digitsToNat ds : Int), r)

/-- Python `dict` insertion: a duplicate key keeps its first position but takes
the last value. -/
def dictInsert (d : List (String × PyJson)) (k : String) (v : PyJson) :
    List (String × PyJson) :=
  if d.any (fun kv => kv.1 == k) then
    d.map (fun kv => if kv.1 == k then (k, v) else kv)
  else d ++ [(k, v)]

mutual
/-- `json.loads`' recursive-descent value parser (`fuel` bounds the recursion;
`pyLoads` supplies enough for any input). -/
def parseVal : Nat → List Char → Option (PyJson × List Char)
  | 0, _ => none
  | fuel + 1, cs =>
      match dropWs cs with
      | 'n' :: 'u' :: 'l' :: 'l' :: r => some (PyJson.null, r)
      | 't' :: 'r' :: 'u' :: 'e' :: r => some (PyJson.bool true, r)
      | 'f' :: 'a' :: 'l' :: 's' :: 'e' :: r => some (PyJson.bool false, r)
      | '"' :: r =>
          match parseStringBody [] r with
          | some (sv, r1) => some (PyJson.str sv, r1)
          | none => none
      | '[' :: r =>
          match dropWs r with
          | [] => none
          | c :: r1 =>
              if c = ']' then some (PyJson.arr [], r1)
              else
                match parseItems fuel r with
                | some (items, r2) => some (PyJson.arr items, r2)
                | none => none
      | '{' :: r =>
          match dropWs r with
          | [] => none
          | c :: r1 =>
              if c = '}' then some (PyJson.obj [], r1)
              else
                match parseMembers fuel r with
                | some (ms, r2) =>
                    some (PyJson.obj (ms.foldl (fun d kv => dictInsert d kv.1 kv.2) []), r2)
                | none => none
      | c :: r =>
          if c = '-' ∨ Char.isDigit c then
            match parseIntToken (c :: r) with
            | some (n, r1) => some (PyJson.int n, r1)
            | none => none
          else none
      | [] => none
/-- One-or-more comma-separated array elements (empty arrays are handled in
`parseVal`). -/
def parseItems : Nat → List Char → Option (List PyJson × List Char)
  | 0, _ => none
  | fuel + 1, cs =>
      match parseVal fuel cs with
      | none => none
      | some (v, r) =>
          match dropWs r with
          | ',' :: r1 =>
              match parseItems fuel r1 with
              | some (vs, r2) => some (v :: vs, r2)
              | none => none
          | ']' :: r1 => some ([v], r1)
          | _ => none
/-- One-or-more `"key": value` members (empty objects are handled in `parseVal`). -/
def parseMembers : Nat → List Char → Option (List (String × PyJson) × List Char)
  | 0, _ => none
  | fuel + 1, cs =>
      match dropWs cs with
      | '"' :: r =>
          match parseStringBody [] r with
          | none => none
          | some (k, r1) =>
              match dropWs r1 with
              | ':' :: r2 =>
                  match parseVal fuel r2 with
                  | none => none
                  | some (v, r3) =>
                      match dropWs r3 with
                      | ',' :: r4 =>
                          match parseMembers fuel r4 with
                          | some (ms, r5) => some ((k, v) :: ms, r5)
                          | none => none
                      | '}' :: r4 => some ([(k, v)], r4)
                      | _ => none
              | _ => none
      | _ => none
end

/-- `json.loads`: parse one value, allow trailing whitespace only.  `none`
models a raised `JSONDecodeError`. -/
def pyLoads (s : String) : Option PyJson :=
  let cs := s.toList
  match parseVal (cs.length + 1) cs with
  | some (v, rest) => if (dropWs rest).isEmpty then some v else none
  | none => none

/-- Result of `save_json_as_json`: `{"status": …, "msg": …}`. -/
structure JsonSaveResult where
  status : Bool
  msg : String
deriving Repr, DecidableEq

/-- Result of `read_json_from_file`: `{"status": …, "msg": …, "data": …}`. -/
structure JsonReadResult where
  status : Bool
  msg : String
  data : Option PyJson
deriving Repr

/-- `InoJsonHelper.save_json_as_json` (`json_helper.py` lines 51–60): the file
is the store (`none` = absent); `writeRaises` is the oracle for an exception
from the file write. -/
def save_json_as_json (json_data : PyJson) (file : Option String)
    (writeRaises : Option String) : Option String × JsonSaveResult :=
  match writeRaises with
  | some e => (file, { status := false, msg := "Error saving file: " ++ e })
  | none => (some (pyDumps json_data), { status := true, msg := "" })

/-- `InoJsonHelper.read_json_from_file` (`json_helper.py` lines 62–76). -/
def read_json_from_file (file : Option String) : JsonReadResult :=
  match file with
  | none => { status := false, msg := "File not found", data := none }
  | some content =>
      match pyLoads content with
      | some v => { status := true, msg := "", data := some v }
      | none => { status := false, msg := "Invalid JSON in file", data := none }


/-! ### Round-trip support: digits and integer literals -/

theorem natChars_digits (n : Nat) : ∀ c ∈ natChars n, Char.isDigit c = true := by
  induction n using Nat.strong_induction_on with
  | _ n ih =>
      intro c hc
      rw [natChars] at hc
      by_cases h : n < 10
      · rw [dif_pos h] at hc
        rcases List.mem_singleton.mp hc with rfl
        interval_cases n <;> decide
      · rw [dif_neg h] at hc
        rcases List.mem_append.mp hc with hm | hm
        · exact ih (n / 10) (Nat.div_lt_self (by omega) (by omega)) c hm
        · rcases List.mem_singleton.mp hm with rfl
          have hlt : n % 10 < 10 := Nat.mod_lt _ (by omega)
          interval_cases hn : (n % 10) <;> decide

theorem natChars_ne_nil (n : Nat) : natChars n ≠ [] := by
  rw [natChars]
  by_cases h : n < 10 <;> simp [h]

theorem natChars_cons_digit (n : Nat) :
    ∃ c t, natChars n = c :: t ∧ Char.isDigit c = true := by
  cases hc : natChars n with
  | nil => exact absurd hc (natChars_ne_nil n)
  | cons c t => exact ⟨c, t, rfl, natChars_digits n c (hc ▸ List.mem_cons_self c t)⟩

theorem digit_char_val (k : Nat) (h : k < 10) : (Char.ofNat (48 + k)).toNat = 48 + k := by
  interval_cases k <;> decide

theorem foldl_digits_append (l1 l2 : List Char) (a : Nat) :
    (l1 ++ l2).foldl (fun acc c => acc * 10 + (c.toNat - 48)) a
      = l2.foldl (fun acc c => acc * 10 + (c.toNat - 48))
          (l1.foldl (fun acc c => acc * 10 + (c.toNat - 48)) a) :=
  List.foldl_append ..

theorem digitsToNat_shift (n : Nat) : ∀ a : Nat,
    (natChars n).foldl (fun acc c => acc * 10 + (c.toNat - 48)) a
      = a * 10 ^ (natChars n).length + n := by
  induction n using Nat.strong_induction_on with
  | _ n ih =>
      intro a
      rw [natChars]
      by_cases h : n < 10
      · rw [dif_pos h]
        simp [List.foldl, digit_char_val n h]
      · rw [dif_neg h]
        rw [foldl_digits_append, ih (n / 10) (Nat.div_lt_self (by omega) (by omega))]
        simp only [List.foldl_cons, List.foldl_nil]
        rw [digit_char_val (n % 10) (Nat.mod_lt _ (by omega))]
        simp only [List.length_append, List.length_cons, List.length_nil, Nat.zero_add]
        rw [pow_succ]
        have h48 : 48 + n % 10 - 48 = n % 10 := by omega
        rw [h48]
        have hsplit : n / 10 * 10 + n % 10 = n := by omega
        calc (a * 10 ^ (natChars (n / 10)).length + n / 10) * 10 + n % 10
            = a * (10 ^ (natChars (n / 10)).length * 10) + (n / 10 * 10 + n % 10) := by ring
          _ = a * (10 ^ (natChars (n / 10)).length * 10) + n := by rw [hsplit]

theorem digitsToNat_natChars (n : Nat) : digitsToNat (natChars n) = n := by
  rw [digitsToNat, digitsToNat_shift n 0]
  simp

/-- `true` when the input cannot extend a decimal literal. -/
def noDigitHead : List Char → Bool
  | [] => true
  | c :: _ => !(Char.isDigit c)

theorem takeWhile_digits_append (ds : List Char) (hds : ∀ c ∈ ds, Char.isDigit c = true)
    (rest : List Char) (hrest : noDigitHead rest = true) :
    (ds ++ rest).takeWhile Char.isDigit = ds
    ∧ (ds ++ rest).dropWhile Char.isDigit = rest := by
  induction ds with
  | nil =>
      cases rest with
      | nil => exact ⟨rfl, rfl⟩
      | cons c t =>
          have hc : Char.isDigit c = false := by
            simpa [noDigitHead] using hrest
          simp [List.takeWhile_cons, List.dropWhile_cons, hc]
  | cons c t ih =>
      have hc : Char.isDigit c = true := hds c (List.mem_cons_self c t)
      have ht := ih (fun x hx => hds x (List.mem_cons_of_mem c hx))
      simp [List.takeWhile_cons, List.dropWhile_cons, hc, ht.1, ht.2]

theorem digit_ne_minus {c : Char} (h : Char.isDigit c = true) : c ≠ '-' := by
  intro hc
  rw [hc] at h
  cases (by decide : Char.isDigit '-' = false) ▸ h

theorem parseIntToken_intChars (n : Int) (rest : List Char)
    (hrest : noDigitHead rest = true) :
    parseIntToken (intChars n ++ rest) = some (n, rest) := by
  have htd := takeWhile_digits_append (natChars n.natAbs) (natChars_digits _) rest hrest
  by_cases hneg : n < 0
  · have harg : intChars n ++ rest = '-' :: (natChars n.natAbs ++ rest) := by
      simp [intChars, hneg]
    rw [harg]
    simp only [parseIntToken, eq_self_iff_true, if_true, htd.1, htd.2]
    rw [if_neg (by simp [List.isEmpty_iff, natChars_ne_nil]), digitsToNat_natChars]
    have hn : -(n.natAbs : Int) = n := by omega
    rw [hn]
  · obtain ⟨c0, t0, hnc, hc0⟩ := natChars_cons_digit n.natAbs
    have hcm : c0 ≠ '-' := digit_ne_minus hc0
    have harg : intChars n ++ rest = c0 :: (t0 ++ rest) := by
      simp [intChars, hneg, hnc]
    have hback : c0 :: (t0 ++ rest) = natChars n.natAbs ++ rest := by
      rw [hnc]; rfl
    rw [harg]
    simp only [parseIntToken, hcm, if_false, hback, htd.1, htd.2]
    rw [if_neg (by simp [List.isEmpty_iff, natChars_ne_nil]), digitsToNat_natChars]
    have hn : (n.natAbs : Int) = n := by omega
    rw [hn]

/-! ### Round-trip support: string literals -/

theorem hexDigitVal_toHexChar (d : Nat) (h : d < 16) :
    hexDigitVal (toHexChar d) = some d := by
  interval_cases d <;> decide

theorem mk_toList (s : String) : String.mk s.toList = s := by
  cases s
  rfl

theorem parseStringBody_escape (c : Char) (acc rest : List Char) :
    parseStringBody acc (escapeChar c ++ rest) = parseStringBody (c :: acc) rest := by
  by_cases h1 : c = '\\'
  · subst h1; rfl
  by_cases h2 : c = '"'
  · subst h2; simp [escapeChar, h1]; rfl
  by_cases h3 : c = Char.ofNat 8
  · subst h3; simp [escapeChar, h1, h2]; rfl
  by_cases h4 : c = Char.ofNat 12
  · subst h4; simp [escapeChar, h1, h2, h3]; rfl
  by_cases h5 : c = '\n'
  · subst h5; simp [escapeChar, h1, h2, h3, h4]; rfl
  by_cases h6 : c = '\r'
  · subst h6; simp [escapeChar, h1, h2, h3, h4, h5]; rfl
  by_cases h7 : c = '\t'
  · subst h7; simp [escapeChar, h1, h2, h3, h4, h5, h6]; rfl
  by_cases h8 : c.toNat < 32
  · have harg : escapeChar c ++ rest =
        '\\' :: 'u' :: toHexChar (c.toNat / 4096 % 16) :: toHexChar (c.toNat / 256 % 16)
          :: toHexChar (c.toNat / 16 % 16) :: toHexChar (c.toNat % 16) :: rest := by
      simp [escapeChar, h1, h2, h3, h4, h5, h6, h7, h8]
    rw [harg, parseStringBody,
      hexDigitVal_toHexChar _ (Nat.mod_lt _ (by omega)),
      hexDigitVal_toHexChar _ (Nat.mod_lt _ (by omega)),
      hexDigitVal_toHexChar _ (Nat.mod_lt _ (by omega)),
      hexDigitVal_toHexChar _ (Nat.mod_lt _ (by omega))]
    have hv : ((c.toNat / 4096 % 16 * 16 + c.toNat / 256 % 16) * 16 + c.toNat / 16 % 16) * 16
        + c.toNat % 16 = c.toNat := by omega
    show parseStringBody (Char.ofNat (((c.toNat / 4096 % 16 * 16 + c.toNat / 256 % 16) * 16
      + c.toNat / 16 % 16) * 16 + c.toNat % 16) :: acc) rest = parseStringBody (c :: acc) rest
    rw [hv, Char.ofNat_toNat]
  · have harg : escapeChar c ++ rest = c :: rest := by
      simp [escapeChar, h1, h2, h3, h4, h5, h6, h7, h8]
    rw [harg, parseStringBody.eq_def]
    simp [h1, h2]

theorem parseStringBody_flatMap (cs : List Char) : ∀ (acc rest : List Char),
    parseStringBody acc (cs.flatMap escapeChar ++ '"' :: rest)
      = some (String.mk (acc.reverse ++ cs), rest) := by
  induction cs with
  | nil => intro acc rest; simp [parseStringBody]
  | cons c t ih =>
      intro acc rest
      rw [List.flatMap_cons, List.append_assoc, parseStringBody_escape, ih]
      simp

theorem parseStringBody_dumpStr (sv : String) (rest : List Char) :
    parseStringBody [] (sv.toList.flatMap escapeChar ++ '"' :: rest) = some (sv, rest) := by
  rw [parseStringBody_flatMap]
  simp [mk_toList]

/-- `parseStringBody_dumpStr` restated over `String.data` (the form `simp`
normalises to). -/
theorem parseStringBody_dumpStr2 (sv : String) (rest : List Char) :
    parseStringBody [] (sv.data.flatMap escapeChar ++ '"' :: rest) = some (sv, rest) :=
  parseStringBody_dumpStr sv rest

/-! ### Round-trip support: whitespace -/

theorem dropWs_cons_ws {c : Char} (x : List Char) (h : isJsonWs c = true) :
    dropWs (c :: x) = dropWs x := by
  simp [dropWs, List.dropWhile_cons, h]

theorem dropWs_ws_append (ws x : List Char) (h : ws.all isJsonWs = true) :
    dropWs (ws ++ x) = dropWs x := by
  induction ws with
  | nil => rfl
  | cons c t ih =>
      rw [List.all_cons, Bool.and_eq_true] at h
      rw [List.cons_append, dropWs_cons_ws _ h.1, ih h.2]

theorem ws_not_digit {c : Char} (h : isJsonWs c = true) : Char.isDigit c = false := by
  rcases (by simpa [isJsonWs] using h :
      ((c = ' ' ∨ c = '\t') ∨ c = '\n') ∨ c = '\r') with ((rfl | rfl) | rfl) | rfl <;> decide

/-- A digit is never equal to a character that is not a digit. -/
theorem ne_of_digit_of_not_digit {c x : Char} (h : Char.isDigit c = true)
    (hx : Char.isDigit x = false) : c ≠ x := by
  intro he
  rw [he, hx] at h
  cases h

theorem digit_not_special {c : Char} (h : Char.isDigit c = true) :
    isJsonWs c = false ∧ c ≠ ']' ∧ c ≠ '}' := by
  have hws : isJsonWs c = false := by
    cases hw : isJsonWs c
    · rfl
    · rw [ws_not_digit hw] at h
      cases h
  exact ⟨hws, ne_of_digit_of_not_digit h (by decide), ne_of_digit_of_not_digit h (by decide)⟩

/-- Every rendered value begins with a character that is neither whitespace nor
a closing bracket. -/
theorem dumpVal_head (d : Nat) (v : PyJson) :
    ∃ c t, dumpVal d v = c :: t ∧ isJsonWs c = false ∧ c ≠ ']' ∧ c ≠ '}' := by
  have hgood : ∀ c : Char, c ∈ ['n', 't', 'f', '-', '"', '[', '{'] →
      isJsonWs c = false ∧ c ≠ ']' ∧ c ≠ '}' := by decide
  cases v with
  | null => exact ⟨'n', _, rfl, hgood 'n' (by decide)⟩
  | bool b =>
      cases b with
      | true => exact ⟨'t', _, rfl, hgood 't' (by decide)⟩
      | false => exact ⟨'f', _, rfl, hgood 'f' (by decide)⟩
  | int n =>
      by_cases hneg : n < 0
      · refine ⟨'-', natChars n.natAbs, ?_, hgood '-' (by decide)⟩
        simp [dumpVal, intChars, hneg]
      · obtain ⟨c0, t0, hnc, hc0⟩ := natChars_cons_digit n.natAbs
        refine ⟨c0, t0, ?_, digit_not_special hc0⟩
        simp [dumpVal, intChars, hneg, hnc]
  | str sv => exact ⟨'"', _, rfl, hgood '"' (by decide)⟩
  | arr items =>
      cases items with
      | nil => exact ⟨'[', _, rfl, hgood '[' (by decide)⟩
      | cons x xs => exact ⟨'[', _, rfl, hgood '[' (by decide)⟩
  | obj ms =>
      cases ms with
      | nil => exact ⟨'{', _, rfl, hgood '{' (by decide)⟩
      | cons m ms => exact ⟨'{', _, rfl, hgood '{' (by decide)⟩

theorem dropWs_dump_append (d : Nat) (v : PyJson) (x : List Char) :
    dropWs (dumpVal d v ++ x) = dumpVal d v ++ x := by
  obtain ⟨c, t, hct, hw, _, _⟩ := dumpVal_head d v
  rw [hct, List.cons_append]
  simp [dropWs, List.dropWhile_cons, hw]

theorem indentChars_all_ws (d : Nat) : (indentChars d).all isJsonWs = true := by
  rw [indentChars]
  induction 2 * d with
  | zero => rfl
  | succ k ih =>
      rw [List.replicate_succ, List.all_cons, ih]
      rfl

theorem noDigitHead_of_dropWs (cs : List Char) (c : Char) (t : List Char)
    (h : dropWs cs = c :: t) (hc : Char.isDigit c = false) :
    noDigitHead cs = true := by
  induction cs with
  | nil => cases h
  | cons a as ih =>
      by_cases hw : isJsonWs a
      · rw [noDigitHead, ws_not_digit hw]
        rfl
      · rw [dropWs, List.dropWhile_cons] at h
        simp only [hw, Bool.false_eq_true, if_false] at h
        injection h with h1 _
        rw [noDigitHead, h1, hc]
        rfl


/-! ### Round-trip support: object member lists under `dict` semantics -/

theorem keysNodup_not_in_left (l1 : List String) (k : String) (l2 : List String)
    (h : keysNodup (l1 ++ k :: l2) = true) : l1.any (fun a => a == k) = false := by
  induction l1 with
  | nil => rfl
  | cons a t ih =>
      rw [List.cons_append, keysNodup, Bool.and_eq_true, Bool.not_eq_true'] at h
      obtain ⟨hna, hrest⟩ := h
      rw [List.any_append, List.any_cons, Bool.or_eq_false_iff,
        Bool.or_eq_false_iff] at hna
      rw [List.any_cons, Bool.or_eq_false_iff]
      refine ⟨?_, ih hrest⟩
      have hka := hna.2.1
      rw [beq_eq_false_iff_ne] at hka ⊢
      exact fun hak => hka hak.symm

theorem keysNodup_shift (l1 : List String) (k : String) (l2 : List String) :
    keysNodup ((l1 ++ [k]) ++ l2) = keysNodup (l1 ++ k :: l2) := by
  rw [List.append_assoc, List.singleton_append]

theorem any_key_map (acc : List (String × PyJson)) (k : String) :
    (acc.any fun kv => kv.1 == k) = ((acc.map (·.1)).any fun a => a == k) := by
  induction acc with
  | nil => rfl
  | cons a t ih => simp [List.any_cons, List.map_cons, ih]

theorem dictInsert_fresh (acc : List (String × PyJson)) (k : String) (v : PyJson)
    (h : (acc.map (·.1)).any (fun a => a == k) = false) :
    dictInsert acc k v = acc ++ [(k, v)] := by
  have hacc : (acc.any fun kv => kv.1 == k) = false := by
    rw [any_key_map, h]
  rw [dictInsert, if_neg (by simp [hacc])]

theorem foldl_dictInsert (ms : List (String × PyJson)) :
    ∀ acc : List (String × PyJson),
    keysNodup (acc.map (·.1) ++ ms.map (·.1)) = true →
    ms.foldl (fun d kv => dictInsert d kv.1 kv.2) acc = acc ++ ms := by
  induction ms with
  | nil =>
      intro acc _
      simp
  | cons m t ih =>
      intro acc h
      rw [List.map_cons] at h
      rw [List.foldl_cons,
        dictInsert_fresh acc m.1 m.2 (keysNodup_not_in_left _ _ _ h), ih]
      · simp
      · rw [List.map_append, List.map_singleton, keysNodup_shift]
        exact h

/-! ### Round-trip support: parser reduction helpers -/

theorem parseVal_leading_ws (f : Nat) (ws cs : List Char) (h : ws.all isJsonWs = true) :
    parseVal (f + 1) (ws ++ cs) = parseVal (f + 1) cs := by
  simp only [parseVal, dropWs_ws_append ws cs h]

theorem parseVal_int_branch (f : Nat) (c : Char) (r : List Char)
    (hn : c ≠ 'n') (ht : c ≠ 't') (hf : c ≠ 'f') (hq : c ≠ '"')
    (hb : c ≠ '[') (hbc : c ≠ '{') (hw : isJsonWs c = false)
    (hg : c = '-' ∨ Char.isDigit c) :
    parseVal (f + 1) (c :: r)
      = (match parseIntToken (c :: r) with
         | some (n, r1) => some (PyJson.int n, r1)
         | none => none) := by
  have hdw : dropWs (c :: r) = c :: r := by
    simp [dropWs, List.dropWhile_cons, hw]
  simp only [parseVal, hdw]
  simp [hn, ht, hf, hq, hb, hbc, hg]


theorem dropWs_cons_notws {c : Char} (x : List Char) (h : isJsonWs c = false) :
    dropWs (c :: x) = c :: x := by
  simp [dropWs, List.dropWhile_cons, h]

theorem digit_not_letters {c : Char} (h : Char.isDigit c = true) :
    c ≠ 'n' ∧ c ≠ 't' ∧ c ≠ 'f' ∧ c ≠ '"' ∧ c ≠ '[' ∧ c ≠ '{' :=
  ⟨ne_of_digit_of_not_digit h (by decide), ne_of_digit_of_not_digit h (by decide),
   ne_of_digit_of_not_digit h (by decide), ne_of_digit_of_not_digit h (by decide),
   ne_of_digit_of_not_digit h (by decide), ne_of_digit_of_not_digit h (by decide)⟩


set_option maxHeartbeats 1000000

theorem rt_bundle : ∀ fuel : Nat,
    (∀ (v : PyJson) (d : Nat) (ws rest : List Char),
      PyJson.wfDict v = true →
      (dumpVal d v).length < fuel →
      ws.all isJsonWs = true →
      noDigitHead rest = true →
      parseVal fuel (ws ++ (dumpVal d v ++ rest)) = some (v, rest))
    ∧ (∀ (x : PyJson) (xs : List PyJson) (d : Nat) (ws close rest : List Char),
      wfArr (x :: xs) = true →
      (dumpVal d x).length + (dumpArrTail d xs).length + 1 < fuel →
      ws.all isJsonWs = true →
      dropWs close = ']' :: rest →
      parseItems fuel (ws ++ (dumpVal d x ++ (dumpArrTail d xs ++ close))) = some (x :: xs, rest))
    ∧ (∀ (m : String × PyJson) (ms : List (String × PyJson)) (d : Nat) (ws close rest : List Char),
      wfObj (m :: ms) = true →
      (dumpMember d m).length + (dumpObjTail d ms).length + 1 < fuel →
      ws.all isJsonWs = true →
      dropWs close = '}' :: rest →
      parseMembers fuel (ws ++ (dumpMember d m ++ (dumpObjTail d ms ++ close))) = some (m :: ms, rest)) := by
  intro fuel
  induction fuel using Nat.strong_induction_on with
  | _ fuel ih =>
  refine ⟨?_, ?_, ?_⟩
  · -- parseVal round-trip
    intro v d ws rest hwf hfb hws hrest
    cases fuel with
    | zero => exact absurd hfb (by omega)
    | succ f =>
    rw [parseVal_leading_ws f _ _ hws]
    cases v with
    | null =>
        show parseVal (f + 1) (['n', 'u', 'l', 'l'] ++ rest) = some (PyJson.null, rest)
        simp [parseVal, dropWs, List.dropWhile_cons, isJsonWs]
    | bool b =>
        cases b with
        | true =>
            show parseVal (f + 1) (['t', 'r', 'u', 'e'] ++ rest) = some (PyJson.bool true, rest)
            simp [parseVal, dropWs, List.dropWhile_cons, isJsonWs]
        | false =>
            show parseVal (f + 1) (['f', 'a', 'l', 's', 'e'] ++ rest)
              = some (PyJson.bool false, rest)
            simp [parseVal, dropWs, List.dropWhile_cons, isJsonWs]
    | int n =>
        by_cases hneg : n < 0
        · have harg : dumpVal d (PyJson.int n) ++ rest = '-' :: (natChars n.natAbs ++ rest) := by
            simp [dumpVal, intChars, hneg]
          rw [harg, parseVal_int_branch f '-' _ (by decide) (by decide) (by decide) (by decide)
            (by decide) (by decide) (by decide) (Or.inl rfl)]
          rw [show ('-' :: (natChars n.natAbs ++ rest) : List Char) = intChars n ++ rest from by
            simp [intChars, hneg]]
          rw [parseIntToken_intChars n rest hrest]
        · obtain ⟨c0, t0, hnc, hc0⟩ := natChars_cons_digit n.natAbs
          obtain ⟨hn', ht', hf', hq', hb', hbc'⟩ := digit_not_letters hc0
          obtain ⟨hw', _, _⟩ := digit_not_special hc0
          have harg : dumpVal d (PyJson.int n) ++ rest = c0 :: (t0 ++ rest) := by
            simp [dumpVal, intChars, hneg, hnc]
          rw [harg, parseVal_int_branch f c0 _ hn' ht' hf' hq' hb' hbc' hw' (Or.inr hc0)]
          rw [show (c0 :: (t0 ++ rest) : List Char) = intChars n ++ rest from by
            simp [intChars, hneg, hnc]]
          rw [parseIntToken_intChars n rest hrest]
    | str sv =>
        have harg : dumpVal d (PyJson.str sv) ++ rest
            = '"' :: (sv.toList.flatMap escapeChar ++ '"' :: rest) := by
          simp [dumpVal, dumpStr]
        rw [harg]
        have hdw : dropWs ('"' :: (sv.toList.flatMap escapeChar ++ '"' :: rest))
            = '"' :: (sv.toList.flatMap escapeChar ++ '"' :: rest) :=
          dropWs_cons_notws _ (by decide)
        simp only [parseVal, hdw]
        rw [parseStringBody_dumpStr2]
        rfl
    | arr items =>
        cases items with
        | nil =>
            show parseVal (f + 1) (['[', ']'] ++ rest) = some (PyJson.arr [], rest)
            simp [parseVal, dropWs, List.dropWhile_cons, isJsonWs]
        | cons x xs =>
            have hwa : wfArr (x :: xs) = true := by
              simpa [PyJson.wfDict] using hwf
            have harg : dumpVal d (PyJson.arr (x :: xs)) ++ rest
                = '[' :: ('\n' :: (indentChars (d + 1) ++ (dumpVal (d + 1) x ++
                    (dumpArrTail (d + 1) xs ++
                      ('\n' :: (indentChars d ++ (']' :: rest))))))) := by
              simp [dumpVal, List.append_assoc]
            rw [harg]
            have hlen := hfb
            simp only [dumpVal, List.length_cons, List.length_append, indentChars,
              List.length_replicate] at hlen
            have hws2 : ('\n' :: indentChars (d + 1)).all isJsonWs = true := by
              rw [List.all_cons, indentChars_all_ws]
              rfl
            have hclose : dropWs ('\n' :: (indentChars d ++ (']' :: rest))) = ']' :: rest := by
              rw [dropWs_cons_ws _ (by decide), dropWs_ws_append _ _ (indentChars_all_ws _),
                dropWs_cons_notws _ (by decide)]
            have hitems := (ih f (by omega)).2.1 x xs (d + 1) ('\n' :: indentChars (d + 1))
              ('\n' :: (indentChars d ++ (']' :: rest))) rest hwa (by omega) hws2 hclose
            obtain ⟨c, t, hct, hcw, hcb, hcbc⟩ := dumpVal_head (d + 1) x
            have hdr : dropWs ('\n' :: (indentChars (d + 1) ++ (dumpVal (d + 1) x ++
                (dumpArrTail (d + 1) xs ++ ('\n' :: (indentChars d ++ (']' :: rest)))))))
                = c :: (t ++ (dumpArrTail (d + 1) xs
                    ++ ('\n' :: (indentChars d ++ (']' :: rest))))) := by
              rw [dropWs_cons_ws _ (by decide), dropWs_ws_append _ _ (indentChars_all_ws _),
                dropWs_dump_append, hct, List.cons_append]
            have hdw : dropWs ('[' :: ('\n' :: (indentChars (d + 1) ++ (dumpVal (d + 1) x ++
                (dumpArrTail (d + 1) xs ++ ('\n' :: (indentChars d ++ (']' :: rest))))))))
                = '[' :: ('\n' :: (indentChars (d + 1) ++ (dumpVal (d + 1) x ++
                (dumpArrTail (d + 1) xs ++ ('\n' :: (indentChars d ++ (']' :: rest))))))) :=
              dropWs_cons_notws _ (by decide)
            simp only [parseVal, hdw, hdr]
            rw [if_neg hcb]
            rw [show ('\n' :: (indentChars (d + 1) ++ (dumpVal (d + 1) x ++
                (dumpArrTail (d + 1) xs ++ ('\n' :: (indentChars d ++ (']' :: rest)))))) :
                List Char)
              = ('\n' :: indentChars (d + 1)) ++ (dumpVal (d + 1) x ++
                (dumpArrTail (d + 1) xs ++ ('\n' :: (indentChars d ++ (']' :: rest)))))
              from rfl, hitems]
    | obj ms =>
        cases ms with
        | nil =>
            show parseVal (f + 1) (['{', '}'] ++ rest) = some (PyJson.obj [], rest)
            simp [parseVal, dropWs, List.dropWhile_cons, isJsonWs]
        | cons m ms =>
            have hwparts : keysNodup ((m :: ms).map (·.1)) = true ∧ wfObj (m :: ms) = true := by
              simpa [PyJson.wfDict, Bool.and_eq_true] using hwf
            have harg : dumpVal d (PyJson.obj (m :: ms)) ++ rest
                = '{' :: ('\n' :: (indentChars (d + 1) ++ (dumpMember (d + 1) m ++
                    (dumpObjTail (d + 1) ms ++
                      ('\n' :: (indentChars d ++ ('}' :: rest))))))) := by
              simp [dumpVal, List.append_assoc]
            rw [harg]
            have hlen := hfb
            simp only [dumpVal, List.length_cons, List.length_append, indentChars,
              List.length_replicate] at hlen
            have hws2 : ('\n' :: indentChars (d + 1)).all isJsonWs = true := by
              rw [List.all_cons, indentChars_all_ws]
              rfl
            have hclose : dropWs ('\n' :: (indentChars d ++ ('}' :: rest))) = '}' :: rest := by
              rw [dropWs_cons_ws _ (by decide), dropWs_ws_append _ _ (indentChars_all_ws _),
                dropWs_cons_notws _ (by decide)]
            have hmem := (ih f (by omega)).2.2 m ms (d + 1) ('\n' :: indentChars (d + 1))
              ('\n' :: (indentChars d ++ ('}' :: rest))) rest hwparts.2 (by omega) hws2 hclose
            have hdumpMemberHead : ∃ t2, dumpMember (d + 1) m
                = '"' :: t2 := by
              obtain ⟨k, v⟩ := m
              exact ⟨_, rfl⟩
            obtain ⟨t2, hmk⟩ := hdumpMemberHead
            have hdr : dropWs ('\n' :: (indentChars (d + 1) ++ (dumpMember (d + 1) m ++
                (dumpObjTail (d + 1) ms ++ ('\n' :: (indentChars d ++ ('}' :: rest)))))))
                = '"' :: (t2 ++ (dumpObjTail (d + 1) ms
                    ++ ('\n' :: (indentChars d ++ ('}' :: rest))))) := by
              rw [dropWs_cons_ws _ (by decide), dropWs_ws_append _ _ (indentChars_all_ws _),
                hmk, List.cons_append, dropWs_cons_notws _ (by decide)]
            have hdw : dropWs ('{' :: ('\n' :: (indentChars (d + 1) ++ (dumpMember (d + 1) m ++
                (dumpObjTail (d + 1) ms ++ ('\n' :: (indentChars d ++ ('}' :: rest))))))))
                = '{' :: ('\n' :: (indentChars (d + 1) ++ (dumpMember (d + 1) m ++
                (dumpObjTail (d + 1) ms ++ ('\n' :: (indentChars d ++ ('}' :: rest))))))) :=
              dropWs_cons_notws _ (by decide)
            simp only [parseVal, hdw, hdr]
            rw [if_neg (by decide : ¬('"' : Char) = '}')]
            rw [show ('\n' :: (indentChars (d + 1) ++ (dumpMember (d + 1) m ++
                (dumpObjTail (d + 1) ms ++ ('\n' :: (indentChars d ++ ('}' :: rest)))))) :
                List Char)
              = ('\n' :: indentChars (d + 1)) ++ (dumpMember (d + 1) m ++
                (dumpObjTail (d + 1) ms ++ ('\n' :: (indentChars d ++ ('}' :: rest)))))
              from rfl, hmem]
            have hfold : (m :: ms).foldl (fun dd kv => dictInsert dd kv.1 kv.2) [] = m :: ms := by
              have := foldl_dictInsert (m :: ms) [] (by simpa using hwparts.1)
              simpa using this
            simp [hfold]
  · -- parseItems round-trip
    intro x xs d ws close rest hwf hfb hws hclose
    cases fuel with
    | zero => exact absurd hfb (by omega)
    | succ f =>
    have hwfx : x.wfDict = true ∧ wfArr xs = true := by
      simpa [wfArr, Bool.and_eq_true] using hwf
    have hnd : noDigitHead (dumpArrTail d xs ++ close) = true := by
      cases xs with
      | nil => simpa [dumpArrTail] using noDigitHead_of_dropWs close ']' rest hclose (by decide)
      | cons y ys => rfl
    have hval := (ih f (by omega)).1 x d ws (dumpArrTail d xs ++ close) hwfx.1
      (by omega) hws hnd
    simp only [parseItems, List.append_assoc] at hval ⊢
    rw [hval]
    cases xs with
    | nil =>
        simp only [dumpArrTail, List.nil_append, hclose]
    | cons y ys =>
        have harg : dumpArrTail d (y :: ys) ++ close
            = ',' :: ('\n' :: (indentChars d ++ (dumpVal d y ++ (dumpArrTail d ys ++ close)))) := by
          simp [dumpArrTail, List.append_assoc]
        have hlen := hfb
        simp only [dumpArrTail, List.length_cons, List.length_append, indentChars,
          List.length_replicate] at hlen
        have hws2 : ('\n' :: indentChars d).all isJsonWs = true := by
          rw [List.all_cons, indentChars_all_ws]
          rfl
        have hitems := (ih f (by omega)).2.1 y ys d ('\n' :: indentChars d) close rest
          hwfx.2 (by omega) hws2 hclose
        have hX : dropWs (',' :: ('\n' :: (indentChars d ++ (dumpVal d y
            ++ (dumpArrTail d ys ++ close)))))
            = ',' :: ('\n' :: (indentChars d ++ (dumpVal d y ++ (dumpArrTail d ys ++ close)))) :=
          dropWs_cons_notws _ (by decide)
        have hcall : parseItems f ('\n' :: (indentChars d ++ (dumpVal d y
            ++ (dumpArrTail d ys ++ close)))) = some (y :: ys, rest) := by
          rw [show ('\n' :: (indentChars d ++ (dumpVal d y ++ (dumpArrTail d ys ++ close))) :
              List Char)
            = ('\n' :: indentChars d) ++ (dumpVal d y ++ (dumpArrTail d ys ++ close)) from rfl]
          exact hitems
        simp only [harg, hX, hcall]
  · -- parseMembers round-trip
    intro m ms d ws close rest hwf hfb hws hclose
    cases fuel with
    | zero => exact absurd hfb (by omega)
    | succ f =>
    obtain ⟨k, v⟩ := m
    have hwfv : v.wfDict = true ∧ wfObj ms = true := by
      simpa [wfObj, Bool.and_eq_true] using hwf
    have harg : ws ++ (dumpMember d (k, v) ++ (dumpObjTail d ms ++ close))
        = ws ++ ('"' :: (k.toList.flatMap escapeChar ++ '"' :: (':' :: (' ' ::
            (dumpVal d v ++ (dumpObjTail d ms ++ close)))))) := by
      simp [dumpMember, dumpStr, List.append_assoc]
    have hdw : dropWs (ws ++ ('"' :: (k.toList.flatMap escapeChar ++ '"' :: (':' :: (' ' ::
        (dumpVal d v ++ (dumpObjTail d ms ++ close)))))))
        = '"' :: (k.toList.flatMap escapeChar ++ '"' :: (':' :: (' ' ::
        (dumpVal d v ++ (dumpObjTail d ms ++ close))))) := by
      rw [dropWs_ws_append _ _ hws, dropWs_cons_notws _ (by decide)]
    have hstr : parseStringBody [] (k.toList.flatMap escapeChar ++ '"' :: (':' :: (' ' ::
        (dumpVal d v ++ (dumpObjTail d ms ++ close)))))
        = some (k, ':' :: (' ' :: (dumpVal d v ++ (dumpObjTail d ms ++ close)))) :=
      parseStringBody_dumpStr k _
    have hcolon : dropWs (':' :: (' ' :: (dumpVal d v ++ (dumpObjTail d ms ++ close))))
        = ':' :: (' ' :: (dumpVal d v ++ (dumpObjTail d ms ++ close))) :=
      dropWs_cons_notws _ (by decide)
    have hnd : noDigitHead (dumpObjTail d ms ++ close) = true := by
      cases ms with
      | nil => simpa [dumpObjTail] using noDigitHead_of_dropWs close '}' rest hclose (by decide)
      | cons m2 ms2 => rfl
    have hlen := hfb
    simp only [dumpMember, dumpStr, List.length_cons, List.length_append] at hlen
    have hval := (ih f (by omega)).1 v d [' '] (dumpObjTail d ms ++ close) hwfv.1
      (by omega) rfl hnd
    have hval2 : parseVal f (' ' :: (dumpVal d v ++ (dumpObjTail d ms ++ close)))
        = some (v, dumpObjTail d ms ++ close) := hval
    cases ms with
    | nil =>
        have hcl2 : dropWs (dumpObjTail d ([] : List (String × PyJson)) ++ close)
            = '}' :: rest := by
          simpa [dumpObjTail] using hclose
        rw [harg]
        simp only [parseMembers, hdw, hstr, hcolon, hval2]
        simp only [hcl2]
    | cons m2 ms2 =>
        have harg2 : dumpObjTail d (m2 :: ms2) ++ close
            = ',' :: ('\n' :: (indentChars d ++ (dumpMember d m2
                ++ (dumpObjTail d ms2 ++ close)))) := by
          simp [dumpObjTail, List.append_assoc]
        have hlen2 := hfb
        simp only [dumpObjTail, dumpMember, dumpStr, List.length_cons, List.length_append,
          indentChars, List.length_replicate] at hlen2
        have hws2 : ('\n' :: indentChars d).all isJsonWs = true := by
          rw [List.all_cons, indentChars_all_ws]
          rfl
        have hmem := (ih f (by omega)).2.2 m2 ms2 d ('\n' :: indentChars d) close rest
          hwfv.2 (by omega) hws2 hclose
        have hX : dropWs (',' :: ('\n' :: (indentChars d ++ (dumpMember d m2
            ++ (dumpObjTail d ms2 ++ close)))))
            = ',' :: ('\n' :: (indentChars d ++ (dumpMember d m2
              ++ (dumpObjTail d ms2 ++ close)))) :=
          dropWs_cons_notws _ (by decide)
        have hcall : parseMembers f ('\n' :: (indentChars d ++ (dumpMember d m2
            ++ (dumpObjTail d ms2 ++ close)))) = some (m2 :: ms2, rest) := hmem
        rw [harg]
        simp only [parseMembers, hdw, hstr, hcolon, hval2]
        simp only [harg2, hX, hcall]

/-- Parsing a dumped value recovers it exactly (`json.loads ∘ json.dumps = id`
on Python data). -/
theorem pyLoads_pyDumps (v : PyJson) (h : v.wfDict = true) :
    pyLoads (pyDumps v) = some v := by
  have hrt := (rt_bundle ((dumpVal 0 v).length + 1)).1 v 0 [] [] h (by omega) rfl rfl
  simp only [List.nil_append, List.append_nil] at hrt
  simp only [pyLoads]
  rw [show (pyDumps v).toList = dumpVal 0 v from rfl, hrt]
  rfl

/-- **C7.** For every JSON-serializable value (objects, arrays, strings,
integer numbers, booleans, null — floats are outside the embedding), saving it
with `save_json_as_json` and reading the file back with `read_json_from_file`
yields a success result whose `data` equals the original value. -/
theorem json_save_read_roundtrip (v : PyJson) (h : v.wfDict = true)
    (file0 : Option String) :
    read_json_from_file (save_json_as_json v file0 none).1 =
      { status := true, msg := "", data := some v } := by
  simp only [save_json_as_json, read_json_from_file, pyLoads_pyDumps v h]

theorem json_save_read_roundtrip_witness :
    read_json_from_file (save_json_as_json
        (PyJson.obj [("a", PyJson.arr [PyJson.int 1, PyJson.int (-2), PyJson.str "x y",
          PyJson.null]), ("b", PyJson.obj []), ("c", PyJson.bool true)])
        none none).1 =
      { status := true, msg := ""
        data := some (PyJson.obj [("a", PyJson.arr [PyJson.int 1, PyJson.int (-2),
          PyJson.str "x y", PyJson.null]), ("b", PyJson.obj []),
          ("c", PyJson.bool true)]) } :=
  json_save_read_roundtrip _
    (by simp [PyJson.wfDict, wfObj, wfArr, keysNodup]) none


end InoPyUtils
